import Mathlib

/-!
# Verification of the cgf-node card-game engine core

A shallow embedding of the turn-based card-game engine of this repository:
the `GameState` container (`src/core/GameState.ts`), the rules contract
(`src/core/GameRules.ts`), the orchestrator `BaseGame`
(`src/core/BaseGame.ts`), and the two rule sets `WarRules`
(`src/games/war/WarRules.ts`) and `GoFishRules`
(`src/games/go-fish/GoFishRules.ts`).

Modelling conventions:
* JS arrays that the source always copies at construction time
  (`Deck`/`Hand` constructors, `getCards()`) are embedded as `List` values.
* Cards are embedded as values.  The one in-place card mutation in the
  sources (`isFaceUp = true` in `WarRules.applyMove`) is reflected in
  the live state; its aliasing into history snapshots is modelled
  explicitly in the heap model below (see `HGameState`), and theorems
  about snapshots are stated at the level of card ids, where the value
  semantics and the aliasing semantics agree.
* A thrown JS exception is embedded as `Option.none`.
* `customState : Record<string, any>` is embedded as an insertion-ordered
  association list over the value shapes the two games actually store
  (`CVal`); `JSON.parse(JSON.stringify ...)` is the identity on these.
-/

/-- A playing card, `ICard` of `src/core/Card.ts`: `{id, name, isFaceUp}`.
Identity is by `id`; only `isFaceUp` is mutable. -/
structure Card where
  id : String
  name : String
  isFaceUp : Bool
deriving DecidableEq, Repr

/-- The values the War and Go Fish rules store in `customState`:
booleans, strings, `null`, arrays of cards (War's `cardsInPlay`) and the
player-id-to-book-ranks map (Go Fish's `books`). -/
inductive CVal where
  | bool (b : Bool)
  | str (s : String)
  | null
  | cards (cs : List Card)
  | books (m : List (String × List String))
deriving DecidableEq, Repr

/-- A player, `src/core/Player.ts`: `{id, name, hand, score}`.  The hand is
the card list of the `Hand` container; `score` is only ever set to hand or
book sizes by the two rule sets, hence `Nat`. -/
structure Player where
  id : String
  name : String
  hand : List Card
  score : Nat
deriving DecidableEq, Repr

/-- Association-list read: `customState[key]`, `undefined` as `none`. -/
def csGet (cs : List (String × CVal)) (k : String) : Option CVal :=
  (cs.find? (fun kv => kv.1 == k)).map (·.2)

/-- Association-list write: `customState[key] = v`.  A JS object keeps the
position of an existing key and appends a fresh one. -/
def csSet (cs : List (String × CVal)) (k : String) (v : CVal) :
    List (String × CVal) :=
  if cs.any (fun kv => kv.1 == k) then
    cs.map (fun kv => if kv.1 == k then (k, v) else kv)
  else cs ++ [(k, v)]

/-- `getCustomState<Card[]>(key, []) || []`: any stored value that is not a
card array (absent, `null`, `false`, ...) yields `[]`. -/
def csGetCards (cs : List (String × CVal)) (k : String) : List Card :=
  match csGet cs k with
  | some (.cards l) => l
  | _ => []

/-- `getCustomState<boolean>(key, false)`: absent or `null` yields `false`. -/
def csGetBool (cs : List (String × CVal)) (k : String) : Bool :=
  match csGet cs k with
  | some (.bool b) => b
  | _ => false

/-- `getCustomState<Record<string, string[]>>("books", {}) || {}`. -/
def csGetBooks (cs : List (String × CVal)) : List (String × List String) :=
  match csGet cs "books" with
  | some (.books m) => m
  | _ => []

/-- The game state container, `src/core/GameState.ts`. -/
structure GameState where
  deck : List Card
  discardPile : List Card
  players : List Player
  currentPlayerId : String
  round : Nat
  customState : List (String × CVal)
deriving DecidableEq, Repr

/-- `GameState.getPlayerById`: first player with the given id. -/
def GameState.getPlayerById (s : GameState) (pid : String) : Option Player :=
  s.players.find? (fun p => p.id == pid)

/-- Mutating the first player with the given id in place
(the source fetches the object with `find` and mutates it). -/
def setPlayer (ps : List Player) (pid : String) (f : Player → Player) :
    List Player :=
  match ps with
  | [] => []
  | p :: rest =>
    if p.id == pid then f p :: rest else p :: setPlayer rest pid f

/-- `GameState.addPlayer`: append; the first player added to a state with
no current player becomes `currentPlayerId`. -/
def GameState.addPlayer (s : GameState) (p : Player) : GameState :=
  let players' := s.players ++ [p]
  if players'.length = 1 ∧ s.currentPlayerId = "" then
    { s with players := players', currentPlayerId := p.id }
  else
    { s with players := players' }

/-- `Hand.removeCard`: splice out the first card with this id. -/
def removeCardById (hand : List Card) (cid : String) : List Card :=
  match hand with
  | [] => []
  | c :: cs => if c.id == cid then cs else c :: removeCardById cs cid

/-- The card list `Hand.removeCards` leaves behind: every card whose id is
not in the removed-id set. -/
def removeCardsByIds (hand : List Card) (ids : List String) : List Card :=
  hand.filter (fun c => ¬ ids.contains c.id)

/-- `card.id.split("-")[0]`: the rank encoded in a card id. -/
def rankOf (c : Card) : String :=
  String.mk (c.id.data.takeWhile (fun ch => ch ≠ '-'))

/-- The rules contract `IGameRules` of `src/core/GameRules.ts`, over a
per-game move payload type `M`.  `initGame` embeds `initializeGame`
(renamed; a thrown precondition violation is `none`); `applyMove` receives
the acting player's id (the source passes the player object the
orchestrator looked up by id, which aliases the one in `state.players`).
`getWinners` is omitted: the orchestrator only displays its result. -/
structure Rules (M : Type) where
  initGame : GameState → Option GameState
  validateMove : GameState → Player → M → Bool
  applyMove : GameState → String → M → GameState
  isGameOver : GameState → Bool
  getCurrentPlayerId : GameState → String
  getNextPlayerId : GameState → String
  nextTurn : GameState → GameState

/-- The orchestrator's own state, `BaseGame` of `src/core/BaseGame.ts`:
the live `GameState`, the snapshot history and the move log.
`GameState.clone()` deep-copies containers and `customState` and is the
identity at the level of values, so `saveState` pushes the current value. -/
structure Engine (M : Type) where
  gameState : GameState
  history : List GameState
  moveHistory : List (String × M)
deriving DecidableEq, Repr

/-- A fresh engine, `new BaseGame(rules, output, initialDeck)`:
empty discard pile, no players, empty current player id, round 1,
empty `customState`, empty history and move log. -/
def mkEngine (M : Type) (deck : List Card) : Engine M :=
  { gameState :=
      { deck := deck, discardPile := [], players := [],
        currentPlayerId := "", round := 1, customState := [] },
    history := [], moveHistory := [] }

/-- `BaseGame.addPlayer`. -/
def Engine.addPlayer (e : Engine M) (p : Player) : Engine M :=
  { e with gameState := e.gameState.addPlayer p }

/-- `BaseGame.start`: snapshot the current (pre-initialization) state,
then let the rules initialize the live state.  A rules precondition
violation (`initializeGame` throws) is `none`. -/
def Engine.start (rules : Rules M) (e : Engine M) : Option (Engine M) :=
  let saved := e.gameState
  match rules.initGame e.gameState with
  | none => none
  | some s' =>
      some { gameState := s', history := e.history ++ [saved],
             moveHistory := e.moveHistory }

/-- `BaseGame.playMove`: resolve the player, check the turn, validate;
only then snapshot, apply the move, log it, and either stop at game over
or advance the turn.  Returns the updated engine and the success flag. -/
def Engine.playMove (rules : Rules M) (e : Engine M) (pid : String)
    (mv : M) : Engine M × Bool :=
  match e.gameState.getPlayerById pid with
  | none => (e, false)
  | some player =>
    if pid ≠ rules.getCurrentPlayerId e.gameState then (e, false)
    else if ¬ rules.validateMove e.gameState player mv then (e, false)
    else
      let saved := e.gameState
      let s2 := rules.applyMove e.gameState pid mv
      let s3 := if rules.isGameOver s2 then s2 else rules.nextTurn s2
      ({ gameState := s3,
         history := e.history ++ [saved],
         moveHistory := e.moveHistory ++ [(pid, mv)] }, true)

/-- `BaseGame.undo`: with at most one snapshot there is nothing to undo;
otherwise pop the last history entry and the last move-log entry and
restore a clone of the new last history entry. -/
def Engine.undo (e : Engine M) : Engine M × Bool :=
  if e.history.length ≤ 1 then (e, false)
  else
    ({ gameState := (e.history.dropLast).getLastD e.gameState,
       history := e.history.dropLast,
       moveHistory := e.moveHistory.dropLast }, true)

/-- `BaseGame.restart`: with no history this is a no-op; otherwise restore
a clone of `history[0]`, truncate history to that entry, clear the log. -/
def Engine.restart (e : Engine M) : Engine M :=
  match e.history with
  | [] => e
  | h0 :: _ =>
      { gameState := h0, history := [h0], moveHistory := [] }

/-- One external call on a running engine: a `playMove` attempt (accepted
or rejected), an `undo`, or a `restart`. -/
inductive ECall (M : Type) where
  | play (pid : String) (mv : M)
  | undoCall
  | restartCall

/-- The engine after one external call. -/
def stepCall (rules : Rules M) (e : Engine M) : ECall M → Engine M
  | .play pid mv => (e.playMove rules pid mv).1
  | .undoCall => e.undo.1
  | .restartCall => e.restart

/-! ## War (`src/games/war/WarRules.ts`) -/

/-- `WarRules.getCardRank`: 2..10, J, Q, K, A ascending; unknown ranks 0. -/
def warRank (c : Card) : Nat :=
  match rankOf c with
  | "2" => 2 | "3" => 3 | "4" => 4 | "5" => 5 | "6" => 6 | "7" => 7
  | "8" => 8 | "9" => 9 | "10" => 10 | "J" => 11 | "Q" => 12 | "K" => 13
  | "A" => 14
  | _ => 0

/-- `WarRules.initializeGame`, parameterized by the outcome `sh` of
`deck.shuffle()` (a permutation): requires exactly two players (otherwise
the source throws), deals `floor(total/2)` cards to each from the top,
makes the first player current and seeds `customState`. -/
def warInitGame (sh : List Card → List Card) (s : GameState) :
    Option GameState :=
  match s.players with
  | [a, b] =>
    let deck1 := sh s.deck
    let per := deck1.length / 2
    let a1 := { a with hand := a.hand ++ deck1.take per }
    let deck2 := deck1.drop per
    let b1 := { b with hand := b.hand ++ deck2.take per }
    let deck3 := deck2.drop per
    some { s with
      deck := deck3
      players := [a1, b1]
      currentPlayerId := a1.id
      customState :=
        csSet (csSet (csSet s.customState "cardsInPlay" (.cards []))
          "warMode" (.bool false)) "roundWinner" .null }
  | _ => none

/-- `WarRules.validateMove`: the move is `"play"` and the hand nonempty. -/
def warValidateMove (_s : GameState) (player : Player) (mv : String) : Bool :=
  mv == "play" && player.hand.length > 0

/-- `WarRules.handleRoundWin`: the winner's hand absorbs the contested
cards, `cardsInPlay`/`warMode`/`roundWinner` are reset, and both players'
scores are set to their hand sizes. -/
def warHandleRoundWin (s : GameState) (winnerId : String)
    (cards : List Card) : GameState :=
  match s.getPlayerById winnerId with
  | none => s
  | some w =>
    let w1 := { w with hand := w.hand ++ cards }
    let s1 := { s with players := setPlayer s.players winnerId (fun _ => w1) }
    let cs2 := csSet (csSet (csSet s1.customState "cardsInPlay" (.cards []))
      "warMode" (.bool false)) "roundWinner" (.str winnerId)
    let s2 := { s1 with customState := cs2 }
    let ps3 :=
      setPlayer s2.players winnerId (fun p => { p with score := p.hand.length })
    let s3 := { s2 with players := ps3 }
    match s3.players.find? (fun p => p.id != winnerId) with
    | none => s3
    | some lo =>
      let ps4 :=
        setPlayer s3.players lo.id (fun p => { p with score := p.hand.length })
      { s3 with players := ps4 }

/-- The war loop of `WarRules.applyMove`: `n` times, each player removes
the top card of their hand and both are pushed (face down, player's card
first) onto the cards in play.  The source runs it only when both hands
have at least `n` cards; the fallback arm mirrors that guard. -/
def warCommit : Nat → Player → Player → List Card →
    Player × Player × List Card
  | 0, p, q, cip => (p, q, cip)
  | n + 1, p, q, cip =>
    match p.hand, q.hand with
    | pc :: _, qc :: _ =>
        warCommit n { p with hand := removeCardById p.hand pc.id }
          { q with hand := removeCardById q.hand qc.id } (cip ++ [pc, qc])
    | _, _ => (p, q, cip)

/-- `WarRules.applyMove`: both players reveal their top card face up onto
the cards in play; the higher rank wins the pile, a tie enters war mode,
where a player short of 4 cards loses the pile to the larger hand and
otherwise each side commits three cards face down.  The fallback arms
correspond to points where the source would fault (`!`, index `[0]` of an
empty hand); no reachable state hits them. -/
def warApplyMove (s : GameState) (pid : String) (mv : String) : GameState :=
  if mv != "play" then s
  else
    let cardsInPlay := csGetCards s.customState "cardsInPlay"
    match s.getPlayerById pid, s.players.find? (fun p => p.id != pid) with
    | some player, some other =>
      match player.hand, other.hand with
      | pc :: _, oc :: _ =>
        let player1 := { player with hand := removeCardById player.hand pc.id }
        let other1 := { other with hand := removeCardById other.hand oc.id }
        let pc1 := { pc with isFaceUp := true }
        let oc1 := { oc with isFaceUp := true }
        let cip1 := cardsInPlay ++ [pc1, oc1]
        let ps1 := setPlayer (setPlayer s.players pid (fun _ => player1))
          other1.id (fun _ => other1)
        let s1 := { s with players := ps1 }
        if warRank pc1 > warRank oc1 then warHandleRoundWin s1 pid cip1
        else if warRank oc1 > warRank pc1 then
          warHandleRoundWin s1 other1.id cip1
        else
          let cs2 := csSet (csSet s1.customState "warMode" (.bool true))
            "cardsInPlay" (.cards cip1)
          let s2 := { s1 with customState := cs2 }
          if player1.hand.length < 4 ∨ other1.hand.length < 4 then
            if player1.hand.length > other1.hand.length then
              warHandleRoundWin s2 pid cip1
            else warHandleRoundWin s2 other1.id cip1
          else
            let r := warCommit 3 player1 other1 cip1
            let ps3 := setPlayer (setPlayer s2.players pid (fun _ => r.1))
              r.2.1.id (fun _ => r.2.1)
            let s3 := { s2 with players := ps3 }
            let cs3 := csSet s3.customState "cardsInPlay" (.cards r.2.2)
            { s3 with customState := cs3 }
      | _, _ => s
    | _, _ => s

/-- `WarRules.isGameOver`: some player's hand is empty. -/
def warIsGameOver (s : GameState) : Bool :=
  s.players.any (fun p => p.hand.length == 0)

/-- `WarRules.getNextPlayerId`: the other player.  The source dereferences
the lookup with `!`; the fallback arm is unreachable in a two-player game. -/
def warGetNextPlayerId (s : GameState) : String :=
  match s.players.find? (fun p => p.id != s.currentPlayerId) with
  | some p => p.id
  | none => ""

/-- `WarRules.nextTurn`. -/
def warNextTurn (s : GameState) : GameState :=
  { s with currentPlayerId := warGetNextPlayerId s }

/-- The War rules bundle, parameterized by the shuffle outcome. -/
def warRules (sh : List Card → List Card) : Rules String :=
  { initGame := warInitGame sh
    validateMove := warValidateMove
    applyMove := warApplyMove
    isGameOver := warIsGameOver
    getCurrentPlayerId := fun s => s.currentPlayerId
    getNextPlayerId := warGetNextPlayerId
    nextTurn := warNextTurn }

/-! ## Concrete fixtures -/

/-- A face-down standard card named after its rank and suit. -/
def cardC (r su : String) : Card :=
  { id := r ++ "-" ++ su, name := r ++ " of " ++ su, isFaceUp := false }

/-- A four-card deck for a deterministic two-player War game. -/
def deckWar4 : List Card :=
  [cardC "A" "Hearts", cardC "K" "Hearts", cardC "Q" "Hearts",
   cardC "J" "Hearts"]

/-- Fresh players, as built by `new Player(id, name)`. -/
def mkPlayer (pid nm : String) : Player :=
  { id := pid, name := nm, hand := [], score := 0 }

/-- A War engine with two players added and not yet started. -/
def warDemoE0 : Engine String :=
  ((mkEngine String deckWar4).addPlayer (mkPlayer "p1" "Alice")).addPlayer
    (mkPlayer "p2" "Bob")

/-- The War engine after `start()` with the identity shuffle:
p1 holds A,K of Hearts, p2 holds Q,J of Hearts, p1 to move. -/
def warDemoE1 : Engine String :=
  (warDemoE0.start (warRules id)).getD warDemoE0

/-- The engine after the single accepted move `playMove("p1", "play")`. -/
def warDemoE2 : Engine String × Bool :=
  warDemoE1.playMove (warRules id) "p1" "play"

/-- The engine after `undo()` follows the single accepted move. -/
def warDemoE3 : Engine String × Bool :=
  warDemoE2.1.undo

/-! ## C1 -/

/-- Claim C1 (undo restores the state after N−1 moves) is violated by the
code: history stores pre-move snapshots, yet `undo` pops the last snapshot
and restores the new last one, i.e. the state before move N−1.  Concretely,
for the two-player War game on a four-card deck with N = 1: `start()`
deals two cards to each hand, the single move is accepted, `undo()`
returns `true` and leaves history with 1 entry and the move log empty
(as the claim says), but the live state has both hands empty and all four
cards back in the deck — the pre-initialization snapshot, not the dealt
state after 0 moves. -/
theorem undo_restores_preinit_snapshot_after_one_move :
    warDemoE0.start (warRules id) = some warDemoE1 ∧
    warDemoE1.gameState.players.map (fun p => p.hand.length) = [2, 2] ∧
    warDemoE2.2 = true ∧
    warDemoE3.2 = true ∧
    warDemoE3.1.history.length = 1 ∧
    warDemoE3.1.moveHistory = [] ∧
    warDemoE3.1.gameState.players.map (fun p => p.hand.length) = [0, 0] ∧
    warDemoE3.1.gameState.deck.length = 4 ∧
    warDemoE3.1.gameState ≠ warDemoE1.gameState := by
  decide

/-! ## C4 -/

/-- Claim C4: a `playMove` whose player lookup fails, whose player is not
the current player per the rules, or whose move fails `validateMove`,
returns `false` and leaves the engine (live state, history, move log)
unchanged: the source mutates nothing before all three checks pass. -/
theorem rejected_playMove_leaves_engine_unchanged {M : Type}
    (rules : Rules M) (e : Engine M) (pid : String) (mv : M)
    (h : e.gameState.getPlayerById pid = none ∨
         pid ≠ rules.getCurrentPlayerId e.gameState ∨
         (∀ p, e.gameState.getPlayerById pid = some p →
            rules.validateMove e.gameState p mv = false)) :
    e.playMove rules pid mv = (e, false) := by
  unfold Engine.playMove
  rcases h with h | h | h
  · rw [h]
  · cases hfind : e.gameState.getPlayerById pid with
    | none => rfl
    | some p => simp [h]
  · cases hfind : e.gameState.getPlayerById pid with
    | none => rfl
    | some p =>
      by_cases hturn : pid = rules.getCurrentPlayerId e.gameState
      · simp [hturn, h p hfind]
      · simp [hturn]

/-- Witness for C4: on the dealt War demo engine it is p1's turn, so
`playMove("p2", "play")` is rejected and changes nothing. -/
theorem rejected_playMove_leaves_engine_unchanged_witness :
    "p2" ≠ (warRules id).getCurrentPlayerId warDemoE1.gameState ∧
    warDemoE1.playMove (warRules id) "p2" "play" = (warDemoE1, false) :=
  ⟨by decide,
   rejected_playMove_leaves_engine_unchanged (warRules id) warDemoE1 "p2"
     "play" (Or.inr (Or.inl (by decide)))⟩

/-! ## C5 -/

/-- `restart` is idempotent on the nose. -/
theorem restart_restart {M : Type} (e : Engine M) :
    e.restart.restart = e.restart := by
  obtain ⟨gs, hist, mh⟩ := e
  cases hist with
  | nil => rfl
  | cons h0 t => rfl

/-- Claim C5: on an engine with non-empty history, any chain of `restart`
calls equals a single one, and after it the live state equals `history[0]`,
the history is exactly that one entry, and the move log is empty. -/
theorem restart_idempotent {M : Type} (e : Engine M) (h0 : GameState)
    (hh : e.history.head? = some h0) :
    (∀ n : Nat, Engine.restart^[n + 1] e = e.restart) ∧
    e.restart.gameState = h0 ∧
    e.restart.history = [h0] ∧
    e.restart.moveHistory = [] := by
  obtain ⟨t, ht⟩ : ∃ t, e.history = h0 :: t := by
    cases hhist : e.history with
    | nil => rw [hhist] at hh; exact absurd hh (by simp)
    | cons a t =>
        rw [hhist] at hh
        simp only [List.head?_cons, Option.some.injEq] at hh
        exact ⟨t, by rw [hh]⟩
  have hre : e.restart = ⟨h0, [h0], []⟩ := by
    unfold Engine.restart
    rw [ht]
  refine ⟨?_, by rw [hre], by rw [hre], by rw [hre]⟩
  intro n
  induction n with
  | zero => rfl
  | succ m ih =>
      rw [Function.iterate_succ_apply', ih, restart_restart]

/-- Witness for C5: instantiated on the dealt War demo engine, whose
single history entry is the pre-initialization snapshot. -/
theorem restart_idempotent_witness :
    warDemoE1.history.head? = some warDemoE0.gameState ∧
    (Engine.restart^[3] warDemoE1 = warDemoE1.restart ∧
     warDemoE1.restart.gameState = warDemoE0.gameState ∧
     warDemoE1.restart.history = [warDemoE0.gameState] ∧
     warDemoE1.restart.moveHistory = []) := by
  have h := restart_idempotent warDemoE1 warDemoE0.gameState (by decide)
  exact ⟨by decide, h.1 2, h.2.1, h.2.2.1, h.2.2.2⟩

/-! ## Engine characterization lemmas -/

/-- `playMove` either rejects — engine unchanged, `false` — or accepts,
appending the pre-move snapshot to history and the pair to the log. -/
theorem playMove_characterization {M : Type} (rules : Rules M)
    (e : Engine M) (pid : String) (mv : M) :
    e.playMove rules pid mv = (e, false) ∨
    ((e.playMove rules pid mv).2 = true ∧
     (e.playMove rules pid mv).1.history = e.history ++ [e.gameState] ∧
     (e.playMove rules pid mv).1.moveHistory =
       e.moveHistory ++ [(pid, mv)]) := by
  unfold Engine.playMove
  cases hf : e.gameState.getPlayerById pid with
  | none => exact Or.inl rfl
  | some p =>
      dsimp only
      by_cases h1 : pid = rules.getCurrentPlayerId e.gameState
      · rw [if_neg (fun hc => hc h1)]
        by_cases h2 : rules.validateMove e.gameState p mv = true
        · rw [if_neg (by simp [h2])]
          exact Or.inr ⟨rfl, rfl, rfl⟩
        · rw [if_pos (by simp [h2])]
          exact Or.inl rfl
      · rw [if_pos h1]
        exact Or.inl rfl

/-- `undo` either has nothing to return to or pops one entry from both
sequences. -/
theorem undo_characterization {M : Type} (e : Engine M) :
    (e.history.length ≤ 1 ∧ e.undo = (e, false)) ∨
    (2 ≤ e.history.length ∧ e.undo.1.history = e.history.dropLast ∧
     e.undo.1.moveHistory = e.moveHistory.dropLast ∧ e.undo.2 = true) := by
  unfold Engine.undo
  by_cases hl : e.history.length ≤ 1
  · rw [if_pos hl]
    exact Or.inl ⟨hl, rfl⟩
  · rw [if_neg hl]
    exact Or.inr ⟨by omega, rfl, rfl, rfl⟩

/-- `restart` either has no history or truncates to the first snapshot. -/
theorem restart_characterization {M : Type} (e : Engine M) :
    (e.history = [] ∧ e.restart = e) ∨
    (∃ h0 t, e.history = h0 :: t ∧
      e.restart = ⟨h0, [h0], []⟩) := by
  unfold Engine.restart
  cases hh : e.history with
  | nil => exact Or.inl ⟨rfl, rfl⟩
  | cons h0 t => exact Or.inr ⟨h0, t, rfl, rfl⟩

/-! ## C6 -/

/-- The history/move-log lockstep invariant of the spec:
`moveHistory.length = history.length − 1` once the first snapshot exists. -/
def lockstep (e : Engine M) : Prop :=
  e.moveHistory.length + 1 = e.history.length

/-- Every single external call preserves the lockstep invariant. -/
theorem lockstep_stepCall {M : Type} (rules : Rules M) (e : Engine M)
    (a : ECall M) (h : lockstep e) : lockstep (stepCall rules e a) := by
  unfold lockstep at h ⊢
  cases a with
  | play pid mv =>
      simp only [stepCall]
      rcases playMove_characterization rules e pid mv with hc | hc
      · rw [hc]
        exact h
      · rw [hc.2.1, hc.2.2]
        simp only [List.length_append, List.length_cons, List.length_nil]
        omega
  | undoCall =>
      simp only [stepCall]
      rcases undo_characterization e with ⟨_, hc⟩ | ⟨hl, h1, h2, _⟩
      · rw [hc]
        exact h
      · rw [h1, h2]
        simp only [List.length_dropLast]
        omega
  | restartCall =>
      simp only [stepCall]
      rcases restart_characterization e with ⟨_, hc⟩ | ⟨h0, t, _, hc⟩
      · rw [hc]
        exact h
      · rw [hc]
        rfl

/-- Claim C6: `start()` establishes the lockstep invariant (one snapshot,
empty log); every sequence of `playMove`/`undo`/`restart` calls — accepted
or rejected — preserves it; and each accepted `playMove` appends exactly
its `{playerId, move}` pair to the log alongside its pre-move snapshot. -/
theorem moveLog_history_lockstep {M : Type} (rules : Rules M) :
    (∀ e0 e1 : Engine M, e0.history = [] → e0.moveHistory = [] →
       e0.start rules = some e1 → lockstep e1) ∧
    (∀ (e : Engine M) (calls : List (ECall M)), lockstep e →
       lockstep (calls.foldl (stepCall rules) e)) ∧
    (∀ (e : Engine M) (pid : String) (mv : M),
       (e.playMove rules pid mv).2 = true →
       (e.playMove rules pid mv).1.moveHistory =
         e.moveHistory ++ [(pid, mv)] ∧
       (e.playMove rules pid mv).1.history =
         e.history ++ [e.gameState]) := by
  refine ⟨?_, ?_, ?_⟩
  · intro e0 e1 hh hm hs
    unfold Engine.start at hs
    cases hi : rules.initGame e0.gameState with
    | none => rw [hi] at hs; simp at hs
    | some s2 =>
        rw [hi] at hs
        simp only [Option.some.injEq] at hs
        unfold lockstep
        rw [← hs]
        simp [hh, hm]
  · intro e calls h
    induction calls generalizing e with
    | nil => exact h
    | cons a rest ih =>
        exact ih (stepCall rules e a) (lockstep_stepCall rules e a h)
  · intro e pid mv hacc
    rcases playMove_characterization rules e pid mv with hc | hc
    · rw [hc] at hacc
      simp at hacc
    · exact ⟨hc.2.2, hc.2.1⟩

/-- Witness for C6: the War demo run — `start`, one accepted move, one
`undo`, one `restart` — stays in lockstep throughout. -/
theorem moveLog_history_lockstep_witness :
    (warDemoE0.history = [] ∧ warDemoE0.moveHistory = [] ∧
     warDemoE0.start (warRules id) = some warDemoE1 ∧ lockstep warDemoE1) ∧
    lockstep ([ECall.play "p1" "play", ECall.undoCall,
      ECall.restartCall].foldl (stepCall (warRules id)) warDemoE1) ∧
    (warDemoE2.2 = true ∧
     warDemoE2.1.moveHistory = warDemoE1.moveHistory ++ [("p1", "play")] ∧
     warDemoE2.1.history = warDemoE1.history ++ [warDemoE1.gameState]) := by
  have h := moveLog_history_lockstep (M := String) (warRules id)
  have hl1 : lockstep warDemoE1 :=
    h.1 warDemoE0 warDemoE1 (by decide) (by decide) (by decide)
  refine ⟨⟨by decide, by decide, by decide, hl1⟩, ?_, ?_⟩
  · exact h.2.1 warDemoE1 _ hl1
  · have h3 := h.2.2 warDemoE1 "p1" "play" (by decide)
    exact ⟨by decide, h3.1, h3.2⟩

/-! ## C9 -/

/-- The id-level view of a `GameState`: card object identities and every
other field.  Snapshot theorems are stated through this view because in
the source the snapshots alias the live card objects, whose `isFaceUp`
flag War later mutates in place; everything except the flags of cards in
`deck`/`discardPile`/hands is identical between that aliasing semantics
and the value semantics used here (`customState` is JSON-deep-copied by
`clone`, so it does not alias). -/
structure StateView where
  deckIds : List String
  discardIds : List String
  hands : List (String × List String)
  currentPlayerId : String
  round : Nat
  customState : List (String × CVal)
deriving DecidableEq, Repr

/-- Project a `GameState` to its id-level view. -/
def idView (s : GameState) : StateView :=
  { deckIds := s.deck.map Card.id
    discardIds := s.discardPile.map Card.id
    hands := s.players.map (fun p => (p.id, p.hand.map Card.id))
    currentPlayerId := s.currentPlayerId
    round := s.round
    customState := s.customState }

/-- A `playMove` fold never touches `history[0]`: rejected calls change
nothing, accepted calls only append. -/
theorem playMove_fold_preserves_head {M : Type} (rules : Rules M)
    (moves : List (String × M)) :
    ∀ (e : Engine M) (h0 : GameState), e.history.head? = some h0 →
    ((moves.foldl (fun ei pm => (ei.playMove rules pm.1 pm.2).1) e).history).head?
      = some h0 := by
  induction moves with
  | nil => intro e h0 hh; exact hh
  | cons pm rest ih =>
      intro e h0 hh
      refine ih _ h0 ?_
      dsimp only
      rcases playMove_characterization rules e pm.1 pm.2 with hc | hc
      · rw [hc]
        exact hh
      · rw [hc.2.1]
        cases hl : e.history with
        | nil => rw [hl] at hh; simp at hh
        | cons a t =>
            rw [hl] at hh
            simp only [List.head?_cons] at hh
            simp [hh]

/-- Claim C9: `history[0]` is the snapshot taken before
`rules.initializeGame` ran; after `start()` and any `playMove` calls,
`restart()` restores exactly that pre-initialization state — players with
empty hands, the full undealt deck, empty `customState` — truncates
history to it and clears the log, and never re-runs the initialization
(the restored state is the undealt one, not a freshly dealt one). -/
theorem history_zero_is_preinit_and_restart_restores_it {M : Type}
    (rules : Rules M) (e0 e1 ef : Engine M) (moves : List (String × M))
    (hh : e0.history = [])
    (hhands : ∀ p ∈ e0.gameState.players, p.hand = [])
    (hcs : e0.gameState.customState = [])
    (hs : e0.start rules = some e1)
    (hef : ef = moves.foldl (fun ei pm => (ei.playMove rules pm.1 pm.2).1) e1) :
    ef.history.head?.map idView = some (idView e0.gameState) ∧
    idView ef.restart.gameState = idView e0.gameState ∧
    ef.restart.history.map idView = [idView e0.gameState] ∧
    ef.restart.moveHistory = [] ∧
    (∀ p ∈ ef.restart.gameState.players, p.hand = []) ∧
    ef.restart.gameState.customState = [] ∧
    ef.restart.gameState.deck.map Card.id = e0.gameState.deck.map Card.id := by
  have he1 : e1.history.head? = some e0.gameState := by
    unfold Engine.start at hs
    cases hi : rules.initGame e0.gameState with
    | none => rw [hi] at hs; simp at hs
    | some s2 =>
        rw [hi] at hs
        simp only [Option.some.injEq] at hs
        rw [← hs]
        simp [hh]
  have hhead : ef.history.head? = some e0.gameState := by
    rw [hef]
    exact playMove_fold_preserves_head rules moves e1 e0.gameState he1
  have hre : ef.restart = ⟨e0.gameState, [e0.gameState], []⟩ := by
    rcases restart_characterization ef with ⟨hnil, _⟩ | ⟨a, t, hcons, hc⟩
    · rw [hnil] at hhead; simp at hhead
    · rw [hcons] at hhead
      simp only [List.head?_cons, Option.some.injEq] at hhead
      rw [hc, hhead]
  refine ⟨by rw [hhead]; rfl, by rw [hre], by rw [hre]; rfl, by rw [hre],
    ?_, ?_, ?_⟩
  · rw [hre]
    exact hhands
  · rw [hre]
    exact hcs
  · rw [hre]

/-- Witness for C9: the War demo — start, one accepted move — then
`restart()` is back to the undealt four-card deck and empty hands. -/
theorem history_zero_is_preinit_witness :
    ((∀ p ∈ warDemoE0.gameState.players, p.hand = []) ∧
     warDemoE0.start (warRules id) = some warDemoE1) ∧
    (warDemoE2.1.history.head?.map idView =
       some (idView warDemoE0.gameState) ∧
     idView warDemoE2.1.restart.gameState = idView warDemoE0.gameState ∧
     warDemoE2.1.restart.moveHistory = [] ∧
     (∀ p ∈ warDemoE2.1.restart.gameState.players, p.hand = []) ∧
     warDemoE2.1.restart.gameState.customState = [] ∧
     warDemoE2.1.restart.gameState.deck.map Card.id =
       warDemoE0.gameState.deck.map Card.id) := by
  have h := history_zero_is_preinit_and_restart_restores_it (warRules id)
    warDemoE0 warDemoE1 warDemoE2.1 [("p1", "play")] (by decide)
    (by decide) (by decide) (by decide) (by decide)
  exact ⟨⟨by decide, by decide⟩, h.1, h.2.1, h.2.2.2.1, h.2.2.2.2.1,
    h.2.2.2.2.2.1, h.2.2.2.2.2.2⟩

/-! ## Go Fish (`GoFishRules.ts`) -/

/-- A Go Fish move: ask `targetPlayerId` for every card of `rank`.  The
source receives an untyped payload and first checks exactly this shape;
ill-shaped payloads are the ill-typed terms excluded here. -/
structure GFMove where
  targetPlayerId : String
  rank : String
deriving DecidableEq, Repr

/-- One pass of `CardUtils.dealCards` with `dealOneAtATime`: each player
in order draws one card when the deck still has one. -/
def dealPass : List Card → List Player → List Card × List Player
  | deck, [] => (deck, [])
  | [], p :: ps =>
      let r := dealPass [] ps
      (r.1, p :: r.2)
  | c :: rest, p :: ps =>
      let r := dealPass rest ps
      (r.1, { p with hand := p.hand ++ [c] } :: r.2)

/-- `CardUtils.dealCards`: `n` one-card passes over the players. -/
def dealRounds : Nat → List Card → List Player → List Card × List Player
  | 0, deck, ps => (deck, ps)
  | n + 1, deck, ps =>
      let r := dealPass deck ps
      dealRounds n r.1 r.2

/-- `GoFishRules.initializeGame`, parameterized by the shuffle outcome:
at least two players (otherwise the source throws), deal 7 cards each
(5 with more than 3 players), first player becomes current, seed
`customState`. -/
def goFishInitGame (sh : List Card → List Card) (s : GameState) :
    Option GameState :=
  match s.players with
  | p0 :: _ :: _ =>
      let deck1 := sh s.deck
      let per : Nat := if s.players.length > 3 then 5 else 7
      let r := dealRounds per deck1 s.players
      some { s with
        deck := r.1
        players := r.2
        currentPlayerId := p0.id
        customState :=
          csSet (csSet (csSet s.customState "books" (.books []))
            "lastAction" .null) "gameOver" (.bool false) }
  | _ => none

/-- `GoFishRules.validateMove`: not a self-ask, the target exists, and the
asking player holds at least one card of the requested rank. -/
def goFishValidateMove (s : GameState) (player : Player) (mv : GFMove) :
    Bool :=
  if mv.targetPlayerId == player.id then false
  else
    match s.getPlayerById mv.targetPlayerId with
    | none => false
    | some _ => player.hand.any (fun c => rankOf c == mv.rank)

/-- The distinct ranks of a hand in first-occurrence order — the key
order of the object built by `CardUtils.groupCardsByRank`. -/
def uniqueRanks (hand : List Card) : List String :=
  hand.foldl (fun acc c =>
    if acc.contains (rankOf c) then acc else acc ++ [rankOf c]) []

/-- `CardUtils.groupCardsByRank` as an ordered association list. -/
def groupByRank (hand : List Card) : List (String × List Card) :=
  (uniqueRanks hand).map (fun r => (r, hand.filter (fun c => rankOf c == r)))

/-- Read one player's entry of the `books` map. -/
def booksGet (m : List (String × List String)) (pid : String) :
    Option (List String) :=
  (m.find? (fun kv => kv.1 == pid)).map (·.2)

/-- Write one player's entry of the `books` map (JS object key update). -/
def booksSet (m : List (String × List String)) (pid : String)
    (v : List String) : List (String × List String) :=
  if m.any (fun kv => kv.1 == pid) then
    m.map (fun kv => if kv.1 == pid then (pid, v) else kv)
  else m ++ [(pid, v)]

/-- One iteration of the `checkForBooks` loop over a rank group: a group
of exactly four cards is removed from the hand by ids, its rank is pushed
onto the player's book list, and the score becomes the book count. -/
def bookStep (acc : List Card × List String × Nat)
    (g : String × List Card) : List Card × List String × Nat :=
  if g.2.length = 4 then
    (removeCardsByIds acc.1 (g.2.map Card.id), acc.2.1 ++ [g.1],
     (acc.2.1 ++ [g.1]).length)
  else acc

/-- `GoFishRules.checkForBooks`: group the hand by rank (a snapshot taken
once), initialize the player's books entry if absent, then for each rank
group of exactly four cards remove those cards from the hand, append the
rank to the player's books and set the score to the book count; finally
write the books map back into `customState`. -/
def checkForBooks (s : GameState) (pid : String) : GameState :=
  match s.getPlayerById pid with
  | none => s
  | some p =>
    let groups := groupByRank p.hand
    let books0 := csGetBooks s.customState
    let books1 :=
      if (booksGet books0 pid).isNone then booksSet books0 pid []
      else books0
    let r := groups.foldl bookStep
      (p.hand, (booksGet books1 pid).getD [], p.score)
    let books2 := booksSet books1 pid r.2.1
    let ps :=
      setPlayer s.players pid (fun q => { q with hand := r.1, score := r.2.2 })
    { s with players := ps
             customState := csSet s.customState "books" (.books books2) }

/-- Total number of collected books,
`Object.values(books).reduce((sum, b) => sum + b.length, 0)`. -/
def totalBooks (s : GameState) : Nat :=
  (csGetBooks s.customState).foldl (fun acc kv => acc + kv.2.length) 0

/-- The pairwise-request scan of `GoFishRules.isGameOver`: some player
with cards holds a rank that some other player with cards also holds. -/
def anyValidAsk (s : GameState) : Bool :=
  s.players.any (fun p =>
    p.hand.length != 0 &&
    (uniqueRanks p.hand).any (fun r =>
      s.players.any (fun q =>
        q.id != p.id && q.hand.length != 0 &&
        q.hand.any (fun c => rankOf c == r))))

/-- `GoFishRules.isGameOver`: 13 books collected, or the deck is empty
and either no player has cards or no pairwise request could succeed. -/
def goFishIsGameOver (s : GameState) : Bool :=
  if totalBooks s = 13 then true
  else if s.deck.isEmpty then
    if s.players.any (fun p => p.hand.length > 0) then
      if anyValidAsk s then false else true
    else true
  else false

/-- The shared tail of `GoFishRules.applyMove`: record `lastAction` and
latch `gameOver` when `isGameOver` holds on the updated state. -/
def goFishEpilogue (x : GameState) (act : String) : GameState :=
  let s4 : GameState :=
    { x with customState := csSet x.customState "lastAction" (.str act) }
  if goFishIsGameOver s4 then
    { s4 with customState := csSet s4.customState "gameOver" (.bool true) }
  else s4

/-- `GoFishRules.applyMove`: if the target holds cards of the requested
rank they all transfer to the asker, otherwise the asker goes fish —
drawing one card when the deck is non-empty and earning another turn when
it matches the requested rank; completed books are then collected, the
`lastAction` message recorded, and `gameOver` latched.  The fallback arm
corresponds to the `!` dereference of a missing target in the source. -/
def goFishApplyMove (s : GameState) (pid : String) (mv : GFMove) :
    GameState :=
  match s.getPlayerById pid, s.getPlayerById mv.targetPlayerId with
  | some player, some target =>
    let targetCards := target.hand.filter (fun c => rankOf c == mv.rank)
    let sAfter :=
      if targetCards.length > 0 then
        let ids := targetCards.map Card.id
        let remaining := removeCardsByIds target.hand ids
        let removed := target.hand.filter (fun c => ids.contains c.id)
        let act := player.name ++ " asked " ++ target.name ++ " for " ++
          mv.rank ++ "s and got " ++ toString targetCards.length ++
          " card(s)"
        let ps1 := setPlayer s.players mv.targetPlayerId
          (fun q => { q with hand := remaining })
        let ps2 := setPlayer ps1 pid
          (fun q => { q with hand := q.hand ++ removed })
        (checkForBooks { s with players := ps2 } pid, act)
      else
        let act0 := player.name ++ " asked " ++ target.name ++ " for " ++
          mv.rank ++ "s and was told to Go Fish!"
        match s.deck with
        | drawn :: rest =>
          let ps1 := setPlayer s.players pid
            (fun q => { q with hand := q.hand ++ [drawn] })
          let s1 := { s with deck := rest, players := ps1 }
          let matched := rankOf drawn == mv.rank
          let act :=
            if matched then
              act0 ++ " " ++ player.name ++ " drew the " ++ drawn.name ++
                " and gets another turn!"
            else act0 ++ " " ++ player.name ++ " drew a card."
          let s2 := { s1 with
            customState := csSet s1.customState "anotherTurn" (.bool matched) }
          (checkForBooks s2 pid, act)
        | [] =>
          let act := act0 ++ " The deck is empty."
          let s1 := { s with
            customState := csSet s.customState "anotherTurn" (.bool false) }
          (s1, act)
    goFishEpilogue sAfter.1 sAfter.2
  | _, _ => s

/-- `GoFishRules.getNextPlayerId`: with `anotherTurn` set, the current
player keeps the turn; otherwise round-robin by index (`findIndex`
returning −1 makes index 0 next, exactly as in the source; the empty
fallback arms are the crashes of an empty player list). -/
def goFishGetNextPlayerId (s : GameState) : String :=
  if csGetBool s.customState "anotherTurn" then s.currentPlayerId
  else
    match s.players.findIdx? (fun p => p.id == s.currentPlayerId) with
    | some i =>
        match s.players.get? ((i + 1) % s.players.length) with
        | some p => p.id
        | none => ""
    | none =>
        match s.players.get? 0 with
        | some p => p.id
        | none => ""

/-- `GoFishRules.nextTurn`: advance and clear `anotherTurn`. -/
def goFishNextTurn (s : GameState) : GameState :=
  let s1 := { s with currentPlayerId := goFishGetNextPlayerId s }
  { s1 with customState := csSet s1.customState "anotherTurn" (.bool false) }

/-- The Go Fish rules bundle, parameterized by the shuffle outcome. -/
def goFishRules (sh : List Card → List Card) : Rules GFMove :=
  { initGame := goFishInitGame sh
    validateMove := goFishValidateMove
    applyMove := goFishApplyMove
    isGameOver := goFishIsGameOver
    getCurrentPlayerId := fun s => s.currentPlayerId
    getNextPlayerId := goFishGetNextPlayerId
    nextTurn := goFishNextTurn }

/-! ## customState and player-lookup lemmas -/

/-- Reading the key just written. -/
theorem csGet_csSet_same (cs : List (String × CVal)) (k : String)
    (v : CVal) : csGet (csSet cs k v) k = some v := by
  unfold csSet
  by_cases h : cs.any (fun kv => kv.1 == k)
  · rw [if_pos h]
    induction cs with
    | nil => simp at h
    | cons kv rest ih =>
        by_cases hk : kv.1 = k
        · simp [csGet, hk, List.find?_cons_of_pos]
        · have hrest : (rest.any fun kv => kv.1 == k) = true := by
            simp only [List.any_cons, Bool.or_eq_true] at h
            rcases h with h | h
            · simp [hk] at h
            · exact h
          unfold csGet at ih ⊢
          rw [List.map_cons, if_neg (by simp [hk]),
            List.find?_cons_of_neg _ (by simp [hk])]
          exact ih hrest
  · rw [if_neg h]
    unfold csGet
    induction cs with
    | nil => simp
    | cons kv rest ih =>
        simp only [List.any_cons, Bool.or_eq_true, not_or] at h
        rw [List.cons_append, List.find?_cons_of_neg _ (by simp_all)]
        exact ih (by simpa using h.2)

/-- Writing one key leaves every other key unchanged. -/
theorem csGet_csSet_ne (cs : List (String × CVal)) (k k' : String)
    (v : CVal) (h : k ≠ k') : csGet (csSet cs k v) k' = csGet cs k' := by
  unfold csSet
  by_cases ha : cs.any (fun kv => kv.1 == k)
  · rw [if_pos ha]
    clear ha
    induction cs with
    | nil => rfl
    | cons kv rest ih =>
        unfold csGet at ih ⊢
        rw [List.map_cons]
        by_cases hk : kv.1 = k
        · rw [if_pos (by simp [hk]),
            List.find?_cons_of_neg _ (by simp [h]),
            List.find?_cons_of_neg _ (by simp [hk, h])]
          exact ih
        · rw [if_neg (by simp [hk])]
          by_cases hk2 : kv.1 = k'
          · rw [List.find?_cons_of_pos _ (by simp [hk2]),
              List.find?_cons_of_pos _ (by simp [hk2])]
          · rw [List.find?_cons_of_neg _ (by simp [hk2]),
              List.find?_cons_of_neg _ (by simp [hk2])]
            exact ih
  · rw [if_neg ha]
    clear ha
    unfold csGet
    induction cs with
    | nil => simp [h]
    | cons kv rest ih =>
        rw [List.cons_append]
        by_cases hk2 : kv.1 = k'
        · rw [List.find?_cons_of_pos _ (by simp [hk2]),
            List.find?_cons_of_pos _ (by simp [hk2])]
        · rw [List.find?_cons_of_neg _ (by simp [hk2]),
            List.find?_cons_of_neg _ (by simp [hk2])]
          exact ih

/-- `csGetBool` ignores a write to a different key. -/
theorem csGetBool_csSet_ne (cs : List (String × CVal)) (k k' : String)
    (v : CVal) (h : k ≠ k') :
    csGetBool (csSet cs k v) k' = csGetBool cs k' := by
  unfold csGetBool
  rw [csGet_csSet_ne cs k k' v h]

/-- `csGetCards` ignores a write to a different key. -/
theorem csGetCards_csSet_ne (cs : List (String × CVal)) (k k' : String)
    (v : CVal) (h : k ≠ k') :
    csGetCards (csSet cs k v) k' = csGetCards cs k' := by
  unfold csGetCards
  rw [csGet_csSet_ne cs k k' v h]

/-- `csGetBool` of the key just written. -/
theorem csGetBool_csSet_same (cs : List (String × CVal)) (k : String)
    (b : Bool) : csGetBool (csSet cs k (.bool b)) k = b := by
  unfold csGetBool
  rw [csGet_csSet_same]

/-- `csGetCards` of the key just written. -/
theorem csGetCards_csSet_same (cs : List (String × CVal)) (k : String)
    (l : List Card) : csGetCards (csSet cs k (.cards l)) k = l := by
  unfold csGetCards
  rw [csGet_csSet_same]

/-- Updating a player in place commutes with looking the same id up,
provided the update preserves the id. -/
theorem find_setPlayer_same (ps : List Player) (pid : String)
    (f : Player → Player) (hid : ∀ p, (f p).id = p.id) :
    (setPlayer ps pid f).find? (fun p => p.id == pid) =
      (ps.find? (fun p => p.id == pid)).map f := by
  induction ps with
  | nil => rfl
  | cons p rest ih =>
      by_cases h : p.id = pid
      · unfold setPlayer
        rw [if_pos (by simp [h]),
          List.find?_cons_of_pos _ (by simp [hid p, h]),
          List.find?_cons_of_pos _ (by simp [h])]
        rfl
      · unfold setPlayer
        rw [if_neg (by simp [h]), List.find?_cons_of_neg _ (by simp [h]),
          List.find?_cons_of_neg _ (by simp [h])]
        exact ih

/-- Updating one player leaves lookups of other ids unchanged. -/
theorem find_setPlayer_ne (ps : List Player) (pid pid' : String)
    (f : Player → Player) (hid : ∀ p, (f p).id = p.id) (h : pid ≠ pid') :
    (setPlayer ps pid f).find? (fun p => p.id == pid') =
      ps.find? (fun p => p.id == pid') := by
  induction ps with
  | nil => rfl
  | cons p rest ih =>
      by_cases hp : p.id = pid
      · unfold setPlayer
        rw [if_pos (by simp [hp])]
        by_cases hp2 : p.id = pid'
        · exact absurd (hp ▸ hp2) h
        · rw [List.find?_cons_of_neg _ (by simp [hid p, hp2]),
            List.find?_cons_of_neg _ (by simp [hp2])]
      · unfold setPlayer
        rw [if_neg (by simp [hp])]
        by_cases hp2 : p.id = pid'
        · rw [List.find?_cons_of_pos _ (by simp [hp2]),
            List.find?_cons_of_pos _ (by simp [hp2])]
        · rw [List.find?_cons_of_neg _ (by simp [hp2]),
            List.find?_cons_of_neg _ (by simp [hp2])]
          exact ih

/-! ## checkForBooks lemmas -/

/-- `rankOf` depends only on the card id. -/
theorem rankOf_eq_of_id_eq (c d : Card) (h : c.id = d.id) :
    rankOf c = rankOf d := by
  unfold rankOf
  rw [h]

/-- Each group of `groupByRank` is the hand's filter at its rank. -/
theorem groupByRank_mem (hand : List Card) (g : String × List Card)
    (hg : g ∈ groupByRank hand) :
    g.2 = hand.filter (fun c => rankOf c == g.1) := by
  unfold groupByRank at hg
  rcases List.mem_map.mp hg with ⟨r, _, rfl⟩
  rfl

/-- The book-collection fold keeps any card that no removed group holds. -/
theorem foldBooks_keeps (groups : List (String × List Card)) (c : Card) :
    ∀ (hand0 : List Card) (pb : List String) (sc : Nat),
    c ∈ hand0 →
    (∀ g ∈ groups, g.2.length = 4 → c.id ∉ g.2.map Card.id) →
    c ∈ (groups.foldl bookStep (hand0, pb, sc)).1 := by
  induction groups with
  | nil => intro hand0 pb sc hc _; exact hc
  | cons g rest ih =>
      intro hand0 pb sc hc hg
      rw [List.foldl_cons]
      unfold bookStep
      by_cases h4 : g.2.length = 4
      · rw [if_pos h4]
        refine ih _ _ _ ?_ ?_
        · unfold removeCardsByIds
          refine List.mem_filter.mpr ⟨hc, ?_⟩
          have hnid := hg g (List.mem_cons_self g rest) h4
          simp [hnid]
        · intro g2 hg2 h42
          exact hg g2 (List.mem_cons_of_mem g hg2) h42
      · rw [if_neg h4]
        refine ih _ _ _ hc ?_
        intro g2 hg2 h42
        exact hg g2 (List.mem_cons_of_mem g hg2) h42

/-- `find_setPlayer_same`, specialized to the hand-and-score update that
`checkForBooks` performs. -/
theorem find_setPlayer_hs_same (ps : List Player) (pid : String)
    (h2 : List Card) (sc : Nat) :
    (setPlayer ps pid
        (fun q => { q with hand := h2, score := sc })).find?
        (fun p => p.id == pid) =
      (ps.find? (fun p => p.id == pid)).map
        (fun q => { q with hand := h2, score := sc }) :=
  find_setPlayer_same ps pid _ (fun _ => rfl)

/-- `find_setPlayer_same`, specialized to appending one card to the hand
(`player.hand.addCard(drawnCard)`). -/
theorem find_setPlayer_addCard_same (ps : List Player) (pid : String)
    (c : Card) :
    (setPlayer ps pid
        (fun q => { q with hand := q.hand ++ [c] })).find?
        (fun p => p.id == pid) =
      (ps.find? (fun p => p.id == pid)).map
        (fun q => { q with hand := q.hand ++ [c] }) :=
  find_setPlayer_same ps pid _ (fun _ => rfl)

/-- `checkForBooks` keeps in the player's hand every card whose rank does
not have exactly four copies there. -/
theorem checkForBooks_keeps_card (s : GameState) (pid : String)
    (p : Player) (c : Card)
    (hp : s.getPlayerById pid = some p) (hc : c ∈ p.hand)
    (hn4 : (p.hand.filter (fun d => rankOf d == rankOf c)).length ≠ 4) :
    ∃ q, (checkForBooks s pid).getPlayerById pid = some q ∧ c ∈ q.hand := by
  unfold checkForBooks
  rw [hp]
  dsimp only
  unfold GameState.getPlayerById at hp ⊢
  dsimp only
  rw [find_setPlayer_hs_same, hp]
  refine ⟨_, rfl, ?_⟩
  apply foldBooks_keeps
  · exact hc
  · intro g hgmem h4 hcid
    have hg2 := groupByRank_mem p.hand g hgmem
    rcases List.mem_map.mp hcid with ⟨d, hdmem, hdid⟩
    have hdrank : rankOf d = rankOf c := rankOf_eq_of_id_eq d c hdid
    rw [hg2] at hdmem
    have hdr := (List.mem_filter.mp hdmem).2
    have hr : g.1 = rankOf c := by
      have hdr2 : rankOf d = g.1 := by simpa using hdr
      rw [← hdr2, hdrank]
    rw [hg2, hr] at h4
    exact hn4 h4

/-- `checkForBooks` only rewrites the `books` key of `customState`. -/
theorem checkForBooks_csGet_ne (s : GameState) (pid k : String)
    (h : k ≠ "books") :
    csGet (checkForBooks s pid).customState k = csGet s.customState k := by
  unfold checkForBooks
  cases hp : s.getPlayerById pid with
  | none => rfl
  | some p =>
      dsimp only
      exact csGet_csSet_ne _ _ _ _ (fun hh => h hh.symm)

/-- `checkForBooks` does not touch the deck. -/
theorem checkForBooks_deck (s : GameState) (pid : String) :
    (checkForBooks s pid).deck = s.deck := by
  unfold checkForBooks
  cases hp : s.getPlayerById pid with
  | none => rfl
  | some p => rfl

/-- `checkForBooks` does not touch the current player. -/
theorem checkForBooks_currentPlayerId (s : GameState) (pid : String) :
    (checkForBooks s pid).currentPlayerId = s.currentPlayerId := by
  unfold checkForBooks
  cases hp : s.getPlayerById pid with
  | none => rfl
  | some p => rfl

/-! ## C8 -/

/-- The state `GoFishRules.applyMove` holds right after a successful
go-fish draw, before the `lastAction`/`gameOver` epilogue. -/
def goFishDrawMid (s : GameState) (pid : String) (mv : GFMove)
    (drawn : Card) (rest : List Card) : GameState :=
  checkForBooks
    { s with
      deck := rest
      players := setPlayer s.players pid
        (fun q => { q with hand := q.hand ++ [drawn] })
      customState := csSet s.customState "anotherTurn"
        (.bool (rankOf drawn == mv.rank)) } pid

/-- The `lastAction` message of a go-fish draw. -/
def goFishDrawAct (p target : Player) (mv : GFMove) (drawn : Card) :
    String :=
  let act0 := p.name ++ " asked " ++ target.name ++ " for " ++ mv.rank ++
    "s and was told to Go Fish!"
  if rankOf drawn == mv.rank then
    act0 ++ " " ++ p.name ++ " drew the " ++ drawn.name ++
      " and gets another turn!"
  else act0 ++ " " ++ p.name ++ " drew a card."

/-- Evaluating `GoFishRules.applyMove` on a go-fish draw: the target has
no card of the rank and the deck is non-empty. -/
theorem goFishApplyMove_draw (s : GameState) (pid : String)
    (p target : Player) (mv : GFMove) (drawn : Card) (rest : List Card)
    (hp : s.getPlayerById pid = some p)
    (ht : s.getPlayerById mv.targetPlayerId = some target)
    (hlacks : target.hand.filter (fun c => rankOf c == mv.rank) = [])
    (hdeck : s.deck = drawn :: rest) :
    goFishApplyMove s pid mv =
      goFishEpilogue (goFishDrawMid s pid mv drawn rest)
        (goFishDrawAct p target mv drawn) := by
  unfold goFishApplyMove goFishDrawMid goFishDrawAct
  rw [hp, ht]
  dsimp only
  rw [hlacks, hdeck]
  dsimp only
  rw [if_neg (by simp)]

/-- The epilogue does not touch the players. -/
theorem goFishEpilogue_players (x : GameState) (act : String) :
    (goFishEpilogue x act).players = x.players := by
  unfold goFishEpilogue
  dsimp only
  split <;> rfl

/-- The epilogue does not touch the current player. -/
theorem goFishEpilogue_currentPlayerId (x : GameState) (act : String) :
    (goFishEpilogue x act).currentPlayerId = x.currentPlayerId := by
  unfold goFishEpilogue
  dsimp only
  split <;> rfl

/-- The epilogue rewrites only `lastAction` and `gameOver`. -/
theorem goFishEpilogue_csGet_ne (x : GameState) (act : String) (k : String)
    (h1 : k ≠ "lastAction") (h2 : k ≠ "gameOver") :
    csGet (goFishEpilogue x act).customState k = csGet x.customState k := by
  unfold goFishEpilogue
  dsimp only
  split
  · rw [csGet_csSet_ne _ _ _ _ (fun hh => h2 hh.symm),
      csGet_csSet_ne _ _ _ _ (fun hh => h1 hh.symm)]
  · rw [csGet_csSet_ne _ _ _ _ (fun hh => h1 hh.symm)]

/-- Player lookup only depends on the players list. -/
theorem getPlayerById_congr_players (x y : GameState) (pid : String)
    (h : x.players = y.players) :
    x.getPlayerById pid = y.getPlayerById pid := by
  unfold GameState.getPlayerById
  rw [h]

/-- Claim C8, amended: when the requester (the current player) asks a
target holding no card of the requested rank, the deck is non-empty and
its front card has that rank, `applyMove` draws that card into the
requester's hand — where it stays provided the draw does not complete a
book, i.e. the requester did not already hold exactly three of the rank —
sets `customState.anotherTurn` to `true`, and `getNextPlayerId` then
returns the requester's id, so the requester keeps the turn. -/
theorem goFish_draw_match_extra_turn (s : GameState) (pid : String)
    (p target : Player) (mv : GFMove) (drawn : Card) (rest : List Card)
    (hp : s.getPlayerById pid = some p)
    (ht : s.getPlayerById mv.targetPlayerId = some target)
    (hlacks : target.hand.filter (fun c => rankOf c == mv.rank) = [])
    (hdeck : s.deck = drawn :: rest)
    (hmatch : rankOf drawn = mv.rank)
    (hcur : s.currentPlayerId = pid)
    (hn3 : (p.hand.filter (fun c => rankOf c == mv.rank)).length ≠ 3) :
    (∃ q, (goFishApplyMove s pid mv).getPlayerById pid = some q ∧
       drawn ∈ q.hand) ∧
    csGetBool (goFishApplyMove s pid mv).customState "anotherTurn" = true ∧
    goFishGetNextPlayerId (goFishApplyMove s pid mv) = pid := by
  rw [goFishApplyMove_draw s pid p target mv drawn rest hp ht hlacks hdeck]
  have hturn : csGetBool
      (goFishEpilogue (goFishDrawMid s pid mv drawn rest)
        (goFishDrawAct p target mv drawn)).customState "anotherTurn"
      = true := by
    unfold csGetBool
    rw [goFishEpilogue_csGet_ne _ _ _ (by decide) (by decide)]
    unfold goFishDrawMid
    rw [checkForBooks_csGet_ne _ _ _ (by decide)]
    dsimp only
    rw [csGet_csSet_same]
    simp [hmatch]
  refine ⟨?_, hturn, ?_⟩
  · rw [getPlayerById_congr_players _ _ pid
      (goFishEpilogue_players (goFishDrawMid s pid mv drawn rest)
        (goFishDrawAct p target mv drawn))]
    unfold goFishDrawMid
    have hp2 : (GameState.getPlayerById
        { s with
          deck := rest
          players := setPlayer s.players pid
            (fun q => { q with hand := q.hand ++ [drawn] })
          customState := csSet s.customState "anotherTurn"
            (.bool (rankOf drawn == mv.rank)) } pid)
        = some { p with hand := p.hand ++ [drawn] } := by
      unfold GameState.getPlayerById at hp ⊢
      dsimp only
      rw [find_setPlayer_addCard_same, hp]
      rfl
    refine checkForBooks_keeps_card _ pid _ drawn hp2 (by simp) ?_
    dsimp only
    rw [List.filter_append]
    have hdr : (rankOf drawn == rankOf drawn) = true := by simp
    have hlam : (fun d => rankOf d == rankOf drawn)
        = (fun d => rankOf d == mv.rank) := by
      funext d
      rw [hmatch]
    rw [hlam]
    simp only [List.filter_cons, List.filter_nil, hmatch]
    simp only [beq_self_eq_true, if_true, List.length_append,
      List.length_cons, List.length_nil]
    omega
  · unfold goFishGetNextPlayerId
    rw [hturn]
    rw [if_pos rfl]
    rw [goFishEpilogue_currentPlayerId]
    unfold goFishDrawMid
    rw [checkForBooks_currentPlayerId]
    exact hcur

/-- A Go Fish requester holding one 7 (no book risk). -/
def pW : Player :=
  { id := "p1", name := "Alice",
    hand := [cardC "7" "Hearts", cardC "2" "Diamonds"], score := 0 }

/-- A Go Fish target holding no 7. -/
def tW : Player :=
  { id := "p2", name := "Bob", hand := [cardC "3" "Hearts"], score := 0 }

/-- A Go Fish state whose deck front is the requested 7. -/
def gfW : GameState :=
  { deck := [cardC "7" "Spades", cardC "4" "Clubs"], discardPile := [],
    players := [pW, tW], currentPlayerId := "p1", round := 1,
    customState :=
      [("books", .books []), ("lastAction", .null),
       ("gameOver", .bool false)] }

/-- Witness for C8: Alice (one 7 in hand) asks Bob, who has none; the
deck front is the 7 of Spades; she draws it, keeps it, and keeps the
turn. -/
theorem goFish_draw_match_extra_turn_witness :
    (gfW.getPlayerById "p1" = some pW ∧
     gfW.getPlayerById "p2" = some tW ∧
     tW.hand.filter (fun c => rankOf c == "7") = [] ∧
     gfW.deck = cardC "7" "Spades" :: [cardC "4" "Clubs"] ∧
     rankOf (cardC "7" "Spades") = "7" ∧
     gfW.currentPlayerId = "p1" ∧
     (pW.hand.filter (fun c => rankOf c == "7")).length ≠ 3) ∧
    ((∃ q, (goFishApplyMove gfW "p1" ⟨"p2", "7"⟩).getPlayerById "p1" =
        some q ∧ cardC "7" "Spades" ∈ q.hand) ∧
     csGetBool (goFishApplyMove gfW "p1" ⟨"p2", "7"⟩).customState
       "anotherTurn" = true ∧
     goFishGetNextPlayerId (goFishApplyMove gfW "p1" ⟨"p2", "7"⟩) = "p1") := by
  refine ⟨⟨by decide, by decide, by decide, by decide, by decide,
    by decide, by decide⟩, ?_⟩
  exact goFish_draw_match_extra_turn gfW "p1" pW tW ⟨"p2", "7"⟩
    (cardC "7" "Spades") [cardC "4" "Clubs"] (by decide) (by decide)
    (by decide) (by decide) (by decide) (by decide) (by decide)

/-- A Go Fish state in which the requester already holds three 7s. -/
def gfBookState : GameState :=
  { deck := [cardC "7" "Spades"], discardPile := [],
    players :=
      [{ id := "p1", name := "Alice",
         hand := [cardC "7" "Hearts", cardC "7" "Diamonds",
                  cardC "7" "Clubs"], score := 0 },
       { id := "p2", name := "Bob", hand := [cardC "2" "Hearts"],
         score := 0 }],
    currentPlayerId := "p1", round := 1,
    customState :=
      [("books", .books []), ("lastAction", .null),
       ("gameOver", .bool false)] }

/-- Counterexample for C8 as stated: Alice holds three 7s, asks Bob (who
has none) for 7s, and the deck front is the 7 of Spades.  The scenario of
the claim holds, `anotherTurn` becomes true and she keeps the turn — but
the drawn card is **not** moved into her hand: the completed book removes
all four 7s, so her hand ends empty while the claim requires the card to
be in it. -/
theorem goFish_draw_match_book_counterexample :
    ((gfBookState.getPlayerById "p2").map
       (fun t => t.hand.filter (fun c => rankOf c == "7"))) = some [] ∧
    gfBookState.deck.map Card.id = ["7-Spades"] ∧
    rankOf (cardC "7" "Spades") = "7" ∧
    gfBookState.currentPlayerId = "p1" ∧
    csGetBool (goFishApplyMove gfBookState "p1" ⟨"p2", "7"⟩).customState
      "anotherTurn" = true ∧
    goFishGetNextPlayerId (goFishApplyMove gfBookState "p1" ⟨"p2", "7"⟩)
      = "p1" ∧
    ((goFishApplyMove gfBookState "p1" ⟨"p2", "7"⟩).getPlayerById
       "p1").map Player.hand = some [] ∧
    csGetBooks (goFishApplyMove gfBookState "p1" ⟨"p2", "7"⟩).customState
      = [("p1", ["7"])] := by
  decide

/-! ## War evaluation lemmas -/

/-- Removing the head card by its own id is exactly dropping it. -/
theorem removeCardById_head (c : Card) (cs : List Card) :
    removeCardById (c :: cs) c.id = cs := by
  simp [removeCardById]

/-- `warRank` reads only the card id, so flipping does not change it. -/
theorem warRank_flip (c : Card) (b : Bool) :
    warRank { c with isFaceUp := b } = warRank c := rfl

/-- The player found by id carries that id. -/
theorem find_id_eq (ps : List Player) (pid : String) (p : Player)
    (h : ps.find? (fun r => r.id == pid) = some p) : p.id = pid := by
  have := List.find?_some h
  simpa using this

/-- The player found by a negated id test does not carry that id. -/
theorem find_ne_id (ps : List Player) (pid : String) (p : Player)
    (h : ps.find? (fun r => r.id != pid) = some p) : p.id ≠ pid := by
  have := List.find?_some h
  simpa using this

/-- Replacing the player at an id that is present makes the lookup return
the replacement, provided the replacement keeps the id. -/
theorem find_setPlayer_const (ps : List Player) (pid : String)
    (w a : Player) (hf : ps.find? (fun r => r.id == pid) = some a)
    (hw : w.id = pid) :
    (setPlayer ps pid (fun _ => w)).find? (fun r => r.id == pid) =
      some w := by
  induction ps with
  | nil => simp [List.find?] at hf
  | cons p rest ih =>
      by_cases h : p.id = pid
      · unfold setPlayer
        rw [if_pos (by simp [h]), List.find?_cons_of_pos _ (by simp [hw])]
      · unfold setPlayer
        rw [if_neg (by simp [h]), List.find?_cons_of_neg _ (by simp [h])]
        rw [List.find?_cons_of_neg _ (by simp [h])] at hf
        exact ih hf

/-- A hand- and id-preserving update never changes the hand any lookup
sees. -/
theorem findHand_setPlayer_pres (ps : List Player) (x y : String)
    (f : Player → Player) (hid : ∀ r, (f r).id = r.id)
    (hhand : ∀ r, (f r).hand = r.hand) :
    ((setPlayer ps x f).find? (fun r => r.id == y)).map Player.hand =
      (ps.find? (fun r => r.id == y)).map Player.hand := by
  induction ps with
  | nil => rfl
  | cons p rest ih =>
      by_cases hx : p.id = x
      · unfold setPlayer
        rw [if_pos (by simp [hx])]
        by_cases hy : p.id = y
        · rw [List.find?_cons_of_pos _ (by simp [hid p, hy]),
            List.find?_cons_of_pos _ (by simp [hy])]
          simp [hhand p]
        · rw [List.find?_cons_of_neg _ (by simp [hid p, hy]),
            List.find?_cons_of_neg _ (by simp [hy])]
      · unfold setPlayer
        rw [if_neg (by simp [hx])]
        by_cases hy : p.id = y
        · rw [List.find?_cons_of_pos _ (by simp [hy]),
            List.find?_cons_of_pos _ (by simp [hy])]
        · rw [List.find?_cons_of_neg _ (by simp [hy]),
            List.find?_cons_of_neg _ (by simp [hy])]
          exact ih

/-- A replacement at one id leaves lookups of a different id unchanged,
provided the replacement carries the replaced id. -/
theorem find_setPlayer_const_ne (ps : List Player) (pid pid' : String)
    (w : Player) (hwid : w.id = pid) (h : pid ≠ pid') :
    (setPlayer ps pid (fun _ => w)).find? (fun r => r.id == pid') =
      ps.find? (fun r => r.id == pid') := by
  induction ps with
  | nil => rfl
  | cons p rest ih =>
      by_cases hp : p.id = pid
      · unfold setPlayer
        rw [if_pos (by simp [hp]),
          List.find?_cons_of_neg _ (by simp [hwid, h]),
          List.find?_cons_of_neg _ (by simp [hp, h])]
      · unfold setPlayer
        rw [if_neg (by simp [hp])]
        by_cases hp2 : p.id = pid'
        · rw [List.find?_cons_of_pos _ (by simp [hp2]),
            List.find?_cons_of_pos _ (by simp [hp2])]
        · rw [List.find?_cons_of_neg _ (by simp [hp2]),
            List.find?_cons_of_neg _ (by simp [hp2])]
          exact ih

/-- `findHand_setPlayer_pres`, specialized to the score update
`setScore(hand.size())` that `warHandleRoundWin` performs. -/
theorem findHand_setPlayer_score (ps : List Player) (x y : String) :
    ((setPlayer ps x
        (fun p => { p with score := p.hand.length })).find?
        (fun r => r.id == y)).map Player.hand =
      (ps.find? (fun r => r.id == y)).map Player.hand :=
  findHand_setPlayer_pres ps x y _ (fun _ => rfl) (fun _ => rfl)

/-- `warHandleRoundWin` gives the winner their hand plus the pile. -/
theorem warHandleRoundWin_winner_hand (st : GameState) (wid : String)
    (cards : List Card) (w : Player)
    (hw : st.getPlayerById wid = some w) :
    ((warHandleRoundWin st wid cards).getPlayerById wid).map Player.hand =
      some (w.hand ++ cards) := by
  have hid : w.id = wid := find_id_eq _ _ _ hw
  unfold warHandleRoundWin
  rw [hw]
  dsimp only
  unfold GameState.getPlayerById
  split
  · dsimp only
    rw [findHand_setPlayer_score,
      find_setPlayer_const st.players wid
        { w with hand := w.hand ++ cards } w hw (by simp [hid])]
    rfl
  · dsimp only
    rw [findHand_setPlayer_score, findHand_setPlayer_score,
      find_setPlayer_const st.players wid
        { w with hand := w.hand ++ cards } w hw (by simp [hid])]
    rfl

/-- `warHandleRoundWin` leaves every other player's hand unchanged. -/
theorem warHandleRoundWin_other_hand (st : GameState) (wid oid : String)
    (cards : List Card) (w : Player) (hne : wid ≠ oid)
    (hw : st.getPlayerById wid = some w) :
    ((warHandleRoundWin st wid cards).getPlayerById oid).map Player.hand =
      (st.getPlayerById oid).map Player.hand := by
  have hid : w.id = wid := find_id_eq _ _ _ hw
  unfold warHandleRoundWin
  rw [hw]
  dsimp only
  unfold GameState.getPlayerById
  split
  · dsimp only
    rw [findHand_setPlayer_score,
      find_setPlayer_const_ne st.players wid oid
        { w with hand := w.hand ++ cards } (by simp [hid]) hne]
  · dsimp only
    rw [findHand_setPlayer_score, findHand_setPlayer_score,
      find_setPlayer_const_ne st.players wid oid
        { w with hand := w.hand ++ cards } (by simp [hid]) hne]

/-- `warHandleRoundWin` resets the in-play pile and war mode and records
the round winner, whatever was in `customState` before. -/
theorem warHandleRoundWin_customState (st : GameState) (wid : String)
    (cards : List Card) (w : Player)
    (hw : st.getPlayerById wid = some w) :
    (warHandleRoundWin st wid cards).customState =
      csSet (csSet (csSet st.customState "cardsInPlay" (.cards []))
        "warMode" (.bool false)) "roundWinner" (.str wid) := by
  unfold warHandleRoundWin
  rw [hw]
  dsimp only
  split <;> rfl

/-- Evaluating `WarRules.applyMove` on a tied reveal in which at least one
player is left with fewer than 4 cards: the side with the larger remaining
hand (the other player, when equal) wins the whole contested pile — the
prior in-play cards plus the two face-up reveals — war mode ends, the pile
empties, and the loser keeps only their remaining cards. -/
theorem warApplyMove_tie_short (s : GameState) (pid : String)
    (ap op : Player) (ac oc : Card) (arest orest : List Card)
    (hfp : s.getPlayerById pid = some ap)
    (hfo : s.players.find? (fun r => r.id != pid) = some op)
    (hfo2 : s.players.find? (fun r => r.id == op.id) = some op)
    (hah : ap.hand = ac :: arest) (hoh : op.hand = oc :: orest)
    (htie : warRank ac = warRank oc)
    (hshort : arest.length < 4 ∨ orest.length < 4) :
    (((warApplyMove s pid "play").getPlayerById
        (if arest.length > orest.length then pid else op.id)).map
        Player.hand =
      some ((if arest.length > orest.length then arest else orest) ++
        (csGetCards s.customState "cardsInPlay" ++
         [{ac with isFaceUp := true}, {oc with isFaceUp := true}]))) ∧
    (((warApplyMove s pid "play").getPlayerById
        (if arest.length > orest.length then op.id else pid)).map
        Player.hand =
      some (if arest.length > orest.length then orest else arest)) ∧
    csGetBool (warApplyMove s pid "play").customState "warMode" = false ∧
    csGetCards (warApplyMove s pid "play").customState "cardsInPlay"
      = [] ∧
    csGet (warApplyMove s pid "play").customState "roundWinner" =
      some (.str (if arest.length > orest.length then pid else op.id)) := by
  have hapid : ap.id = pid := find_id_eq _ _ _ hfp
  have hopid : op.id ≠ pid := find_ne_id _ _ _ hfo
  unfold warApplyMove
  rw [if_neg (by decide)]
  rw [hfp, hfo]
  dsimp only
  rw [hah, hoh]
  dsimp only
  rw [removeCardById_head, removeCardById_head]
  simp only [warRank_flip]
  rw [if_neg (by omega), if_neg (by omega)]
  rw [if_pos hshort]
  have hw1 : (GameState.getPlayerById
      { s with
        players := setPlayer
          (setPlayer s.players pid
            (fun _ => { ap with hand := arest })) op.id
          (fun _ => { op with hand := orest })
        customState := csSet (csSet s.customState "warMode" (.bool true))
          "cardsInPlay" (.cards (csGetCards s.customState "cardsInPlay" ++
            [{ac with isFaceUp := true}, {oc with isFaceUp := true}])) }
      pid) = some { ap with hand := arest } := by
    unfold GameState.getPlayerById at hfp ⊢
    dsimp only
    rw [find_setPlayer_const_ne _ op.id pid { op with hand := orest }
      (by simp) hopid]
    exact find_setPlayer_const s.players pid { ap with hand := arest } ap
      hfp (by simp [hapid])
  have hw2 : (GameState.getPlayerById
      { s with
        players := setPlayer
          (setPlayer s.players pid
            (fun _ => { ap with hand := arest })) op.id
          (fun _ => { op with hand := orest })
        customState := csSet (csSet s.customState "warMode" (.bool true))
          "cardsInPlay" (.cards (csGetCards s.customState "cardsInPlay" ++
            [{ac with isFaceUp := true}, {oc with isFaceUp := true}])) }
      op.id) = some { op with hand := orest } := by
    unfold GameState.getPlayerById
    dsimp only
    refine find_setPlayer_const _ op.id { op with hand := orest } op ?_
      (by simp)
    rw [find_setPlayer_const_ne _ pid op.id { ap with hand := arest }
      (by simp [hapid]) (fun hh => hopid hh.symm)]
    exact hfo2
  by_cases hgt : arest.length > orest.length
  · rw [if_pos hgt, if_pos hgt, if_pos hgt, if_pos hgt, if_pos hgt]
    refine ⟨?_, ?_, ?_, ?_, ?_⟩
    · rw [warHandleRoundWin_winner_hand _ pid _ _ hw1]
    · rw [warHandleRoundWin_other_hand _ pid op.id _ _
        (fun hh => hopid hh.symm) hw1, hw2]
      rfl
    · rw [warHandleRoundWin_customState _ pid _ _ hw1,
        csGetBool_csSet_ne _ _ _ _ (by decide), csGetBool_csSet_same]
    · rw [warHandleRoundWin_customState _ pid _ _ hw1,
        csGetCards_csSet_ne _ _ _ _ (by decide),
        csGetCards_csSet_ne _ _ _ _ (by decide), csGetCards_csSet_same]
    · rw [warHandleRoundWin_customState _ pid _ _ hw1, csGet_csSet_same]
  · rw [if_neg hgt, if_neg hgt, if_neg hgt, if_neg hgt, if_neg hgt]
    refine ⟨?_, ?_, ?_, ?_, ?_⟩
    · rw [warHandleRoundWin_winner_hand _ op.id _ _ hw2]
    · rw [warHandleRoundWin_other_hand _ op.id pid _ _ hopid hw2, hw1]
      rfl
    · rw [warHandleRoundWin_customState _ op.id _ _ hw2,
        csGetBool_csSet_ne _ _ _ _ (by decide), csGetBool_csSet_same]
    · rw [warHandleRoundWin_customState _ op.id _ _ hw2,
        csGetCards_csSet_ne _ _ _ _ (by decide),
        csGetCards_csSet_ne _ _ _ _ (by decide), csGetCards_csSet_same]
    · rw [warHandleRoundWin_customState _ op.id _ _ hw2, csGet_csSet_same]

/-- Evaluating `WarRules.applyMove` on a tied reveal with no prior cards
in play and both players holding at least four cards after the reveal:
war mode is set, the pile holds exactly the two face-up reveals plus the
three cards each side commits, and none of those eight cards remains in
either hand. -/
theorem warApplyMove_tie_ample (s : GameState) (pid : String)
    (ap op : Player) (ac oc a1 a2 a3 a4 o1 o2 o3 o4 : Card)
    (atail otail : List Card)
    (hfp : s.getPlayerById pid = some ap)
    (hfo : s.players.find? (fun r => r.id != pid) = some op)
    (hfo2 : s.players.find? (fun r => r.id == op.id) = some op)
    (hah : ap.hand = ac :: a1 :: a2 :: a3 :: a4 :: atail)
    (hoh : op.hand = oc :: o1 :: o2 :: o3 :: o4 :: otail)
    (htie : warRank ac = warRank oc)
    (hcip : csGetCards s.customState "cardsInPlay" = [])
    (hnodup : ((ap.hand ++ op.hand).map Card.id).Nodup) :
    csGetBool (warApplyMove s pid "play").customState "warMode" = true ∧
    csGetCards (warApplyMove s pid "play").customState "cardsInPlay" =
      [{ac with isFaceUp := true}, {oc with isFaceUp := true},
       a1, o1, a2, o2, a3, o3] ∧
    (((warApplyMove s pid "play").getPlayerById pid).map Player.hand =
      some (a4 :: atail)) ∧
    (((warApplyMove s pid "play").getPlayerById op.id).map Player.hand =
      some (o4 :: otail)) ∧
    (∀ c ∈ csGetCards (warApplyMove s pid "play").customState
        "cardsInPlay",
      c.id ∉ (a4 :: atail).map Card.id ∧
      c.id ∉ (o4 :: otail).map Card.id) := by
  have hapid : ap.id = pid := find_id_eq _ _ _ hfp
  have hopid : op.id ≠ pid := find_ne_id _ _ _ hfo
  have heval : warApplyMove s pid "play" =
      { s with
        players := setPlayer (setPlayer
          (setPlayer (setPlayer s.players pid
            (fun _ => { ap with hand := a1 :: a2 :: a3 :: a4 :: atail }))
            op.id (fun _ => { op with hand := o1 :: o2 :: o3 :: o4 :: otail }))
          pid (fun _ => { ap with hand := a4 :: atail }))
          op.id (fun _ => { op with hand := o4 :: otail })
        customState := csSet (csSet (csSet s.customState "warMode"
          (.bool true)) "cardsInPlay"
          (.cards (csGetCards s.customState "cardsInPlay" ++
            [{ac with isFaceUp := true}, {oc with isFaceUp := true}])))
          "cardsInPlay"
          (.cards ((csGetCards s.customState "cardsInPlay" ++
            [{ac with isFaceUp := true}, {oc with isFaceUp := true}]) ++
            [a1, o1, a2, o2, a3, o3])) } := by
    unfold warApplyMove
    rw [if_neg (by decide)]
    rw [hfp, hfo]
    dsimp only
    rw [hah, hoh]
    dsimp only
    rw [removeCardById_head, removeCardById_head]
    simp only [warRank_flip]
    rw [if_neg (by omega), if_neg (by omega)]
    rw [if_neg (by simp)]
    simp only [warCommit, removeCardById_head]
    simp [List.append_assoc]
  rw [heval, hcip]
  dsimp only
  refine ⟨?_, ?_, ?_, ?_, ?_⟩
  · rw [csGetBool_csSet_ne _ _ _ _ (by decide),
      csGetBool_csSet_ne _ _ _ _ (by decide), csGetBool_csSet_same]
  · rw [csGetCards_csSet_same]
    rfl
  · unfold GameState.getPlayerById
    dsimp only
    rw [find_setPlayer_const_ne _ op.id pid { op with hand := o4 :: otail }
      (by simp) hopid]
    rw [find_setPlayer_const _ pid { ap with hand := a4 :: atail }
      { ap with hand := a1 :: a2 :: a3 :: a4 :: atail } ?_ (by simp [hapid])]
    · rfl
    · rw [find_setPlayer_const_ne _ op.id pid
        { op with hand := o1 :: o2 :: o3 :: o4 :: otail } (by simp) hopid]
      exact find_setPlayer_const s.players pid _ ap hfp (by simp [hapid])
  · unfold GameState.getPlayerById
    dsimp only
    rw [find_setPlayer_const _ op.id { op with hand := o4 :: otail }
      { op with hand := o1 :: o2 :: o3 :: o4 :: otail } ?_ (by simp)]
    · rfl
    · rw [find_setPlayer_const_ne _ pid op.id { ap with hand := a4 :: atail }
        (by simp [hapid]) (fun hh => hopid hh.symm)]
      refine find_setPlayer_const _ op.id
        { op with hand := o1 :: o2 :: o3 :: o4 :: otail } op ?_ (by simp)
      rw [find_setPlayer_const_ne _ pid op.id
        { ap with hand := a1 :: a2 :: a3 :: a4 :: atail }
        (by simp [hapid]) (fun hh => hopid hh.symm)]
      exact hfo2
  · intro c hc
    rw [csGetCards_csSet_same] at hc
    have hc2 : c ∈ [{ac with isFaceUp := true},
        {oc with isFaceUp := true}, a1, o1, a2, o2, a3, o3] := by
      simpa using hc
    have hperm : (List.map Card.id (ap.hand ++ op.hand)).Perm
        (List.map Card.id [{ac with isFaceUp := true},
          {oc with isFaceUp := true}, a1, o1, a2, o2, a3, o3] ++
         List.map Card.id ((a4 :: atail) ++ (o4 :: otail))) := by
      rw [hah, hoh]
      refine List.perm_iff_count.mpr ?_
      intro a
      simp only [List.map_append, List.map_cons, List.map_nil,
        List.count_append, List.count_cons, List.count_nil]
      ring
    have hnd2 := (List.Perm.nodup_iff hperm).mp hnodup
    rw [List.nodup_append] at hnd2
    have hdisj := hnd2.2.2
    have hcid := List.mem_map_of_mem Card.id hc2
    have hnm := hdisj hcid
    rw [List.map_append] at hnm
    exact ⟨fun hmem => hnm (List.mem_append_left _ hmem),
      fun hmem => hnm (List.mem_append_right _ hmem)⟩

/-! ## C7 -/

/-- Claim C7, amended: (a) in every War state with **no cards already in
play** where both players' top cards share a rank and each player still
holds at least 4 cards after revealing, `applyMove("play")` sets
`customState.warMode`, leaves `customState.cardsInPlay` holding exactly 8
cards — the 2 face-up reveals plus 3 committed by each player, in commit
order — none of which remains in either player's hand; (b) when after the
tied reveal either player holds fewer than 4 cards and the hand sizes
differ, the player with more cards in hand receives the whole contested
pile outright. -/
theorem war_tie_resolution :
    (∀ (s : GameState) (pid : String) (ap op : Player)
       (ac oc a1 a2 a3 a4 o1 o2 o3 o4 : Card) (atail otail : List Card),
       s.getPlayerById pid = some ap →
       s.players.find? (fun r => r.id != pid) = some op →
       s.players.find? (fun r => r.id == op.id) = some op →
       ap.hand = ac :: a1 :: a2 :: a3 :: a4 :: atail →
       op.hand = oc :: o1 :: o2 :: o3 :: o4 :: otail →
       warRank ac = warRank oc →
       csGetCards s.customState "cardsInPlay" = [] →
       ((ap.hand ++ op.hand).map Card.id).Nodup →
       csGetBool (warApplyMove s pid "play").customState "warMode"
         = true ∧
       (csGetCards (warApplyMove s pid "play").customState
         "cardsInPlay").length = 8 ∧
       csGetCards (warApplyMove s pid "play").customState "cardsInPlay" =
         [{ac with isFaceUp := true}, {oc with isFaceUp := true},
          a1, o1, a2, o2, a3, o3] ∧
       (((warApplyMove s pid "play").getPlayerById pid).map Player.hand =
         some (a4 :: atail)) ∧
       (((warApplyMove s pid "play").getPlayerById op.id).map Player.hand
         = some (o4 :: otail)) ∧
       (∀ c ∈ csGetCards (warApplyMove s pid "play").customState
           "cardsInPlay",
         c.id ∉ (a4 :: atail).map Card.id ∧
         c.id ∉ (o4 :: otail).map Card.id)) ∧
    (∀ (s : GameState) (pid : String) (ap op : Player) (ac oc : Card)
       (arest orest : List Card),
       s.getPlayerById pid = some ap →
       s.players.find? (fun r => r.id != pid) = some op →
       s.players.find? (fun r => r.id == op.id) = some op →
       ap.hand = ac :: arest →
       op.hand = oc :: orest →
       warRank ac = warRank oc →
       arest.length < 4 ∨ orest.length < 4 →
       arest.length ≠ orest.length →
       (((warApplyMove s pid "play").getPlayerById
           (if arest.length > orest.length then pid else op.id)).map
           Player.hand =
         some ((if arest.length > orest.length then arest else orest) ++
           (csGetCards s.customState "cardsInPlay" ++
            [{ac with isFaceUp := true}, {oc with isFaceUp := true}]))) ∧
       csGet (warApplyMove s pid "play").customState "roundWinner" =
         some (.str (if arest.length > orest.length then pid
           else op.id))) := by
  constructor
  · intro s pid ap op ac oc a1 a2 a3 a4 o1 o2 o3 o4 atail otail hfp hfo
      hfo2 hah hoh htie hcip hnodup
    have h := warApplyMove_tie_ample s pid ap op ac oc a1 a2 a3 a4 o1 o2
      o3 o4 atail otail hfp hfo hfo2 hah hoh htie hcip hnodup
    exact ⟨h.1, by rw [h.2.1]; rfl, h.2.1, h.2.2.1, h.2.2.2.1,
      h.2.2.2.2⟩
  · intro s pid ap op ac oc arest orest hfp hfo hfo2 hah hoh htie hshort
      hne
    have h := warApplyMove_tie_short s pid ap op ac oc arest orest hfp
      hfo hfo2 hah hoh htie hshort
    exact ⟨h.1, h.2.2.2.2⟩

/-- A fresh War tie with ample cards: both players lead with a 9 and
keep 5 cards after the reveal; nothing is in play yet. -/
def warAmpleState : GameState :=
  { deck := [], discardPile := [],
    players :=
      [{ id := "p1", name := "Alice",
         hand := [cardC "9" "Hearts", cardC "2" "Hearts",
                  cardC "2" "Diamonds", cardC "2" "Clubs",
                  cardC "2" "Spades", cardC "6" "Hearts"], score := 6 },
       { id := "p2", name := "Bob",
         hand := [cardC "9" "Spades", cardC "3" "Hearts",
                  cardC "3" "Diamonds", cardC "3" "Clubs",
                  cardC "3" "Spades", cardC "6" "Diamonds"], score := 6 }],
    currentPlayerId := "p1", round := 1,
    customState :=
      [("cardsInPlay", .cards []), ("warMode", .bool false),
       ("roundWinner", .null)] }

/-- A War tie in which the acting player keeps 2 cards and the other 1
after the reveal. -/
def warShortState : GameState :=
  { deck := [], discardPile := [],
    players :=
      [{ id := "p1", name := "Alice",
         hand := [cardC "7" "Hearts", cardC "8" "Hearts",
                  cardC "8" "Diamonds"], score := 3 },
       { id := "p2", name := "Bob",
         hand := [cardC "7" "Spades", cardC "8" "Clubs"], score := 2 }],
    currentPlayerId := "p1", round := 1,
    customState :=
      [("cardsInPlay", .cards []), ("warMode", .bool false),
       ("roundWinner", .null)] }

/-- Witness for C7: both halves of the amended claim at concrete states:
the ample tie commits exactly 8 cards, and the short tie awards the pile
to Alice, whose remaining hand is the larger one. -/
theorem war_tie_resolution_witness :
    (warAmpleState.getPlayerById "p1" = some
       { id := "p1", name := "Alice",
         hand := [cardC "9" "Hearts", cardC "2" "Hearts",
                  cardC "2" "Diamonds", cardC "2" "Clubs",
                  cardC "2" "Spades", cardC "6" "Hearts"], score := 6 } ∧
     warRank (cardC "9" "Hearts") = warRank (cardC "9" "Spades") ∧
     csGetBool (warApplyMove warAmpleState "p1" "play").customState
       "warMode" = true ∧
     (csGetCards (warApplyMove warAmpleState "p1" "play").customState
       "cardsInPlay").length = 8) ∧
    (((warApplyMove warShortState "p1" "play").getPlayerById "p1").map
       Player.hand =
     some ([cardC "8" "Hearts", cardC "8" "Diamonds"] ++
       ([] ++ [{cardC "7" "Hearts" with isFaceUp := true},
               {cardC "7" "Spades" with isFaceUp := true}])) ∧
     csGet (warApplyMove warShortState "p1" "play").customState
       "roundWinner" = some (.str "p1")) := by
  have h := war_tie_resolution
  have ha := h.1 warAmpleState "p1"
    { id := "p1", name := "Alice",
      hand := [cardC "9" "Hearts", cardC "2" "Hearts",
               cardC "2" "Diamonds", cardC "2" "Clubs",
               cardC "2" "Spades", cardC "6" "Hearts"], score := 6 }
    { id := "p2", name := "Bob",
      hand := [cardC "9" "Spades", cardC "3" "Hearts",
               cardC "3" "Diamonds", cardC "3" "Clubs",
               cardC "3" "Spades", cardC "6" "Diamonds"], score := 6 }
    (cardC "9" "Hearts") (cardC "9" "Spades") (cardC "2" "Hearts")
    (cardC "2" "Diamonds") (cardC "2" "Clubs") (cardC "2" "Spades")
    (cardC "3" "Hearts") (cardC "3" "Diamonds") (cardC "3" "Clubs")
    (cardC "3" "Spades") [cardC "6" "Hearts"] [cardC "6" "Diamonds"]
    (by decide) (by decide) (by decide) (by decide) (by decide)
    (by decide) (by decide) (by decide)
  have hb := h.2 warShortState "p1"
    { id := "p1", name := "Alice",
      hand := [cardC "7" "Hearts", cardC "8" "Hearts",
               cardC "8" "Diamonds"], score := 3 }
    { id := "p2", name := "Bob",
      hand := [cardC "7" "Spades", cardC "8" "Clubs"], score := 2 }
    (cardC "7" "Hearts") (cardC "7" "Spades")
    [cardC "8" "Hearts", cardC "8" "Diamonds"] [cardC "8" "Clubs"]
    (by decide) (by decide) (by decide) (by decide) (by decide)
    (by decide) (by decide) (by decide)
  refine ⟨⟨by decide, by decide, ha.1, ha.2.1⟩, ?_, ?_⟩
  · have := hb.1
    simpa using this
  · have := hb.2
    simpa using this

/-- A consecutive-war state: a first tied exchange already left 8 cards
in play and war mode on; now the next reveals tie again and both players
still hold at least 4 cards afterwards. -/
def warConsecState : GameState :=
  { deck := [], discardPile := [],
    players :=
      [{ id := "p1", name := "Alice",
         hand := [cardC "9" "Hearts", cardC "2" "Hearts",
                  cardC "2" "Diamonds", cardC "2" "Clubs",
                  cardC "2" "Spades", cardC "6" "Hearts"], score := 6 },
       { id := "p2", name := "Bob",
         hand := [cardC "9" "Spades", cardC "3" "Hearts",
                  cardC "3" "Diamonds", cardC "3" "Clubs",
                  cardC "3" "Spades", cardC "6" "Diamonds"], score := 6 }],
    currentPlayerId := "p1", round := 1,
    customState :=
      [("cardsInPlay", .cards
         [{cardC "K" "Hearts" with isFaceUp := true},
          {cardC "K" "Spades" with isFaceUp := true},
          cardC "4" "Hearts", cardC "4" "Spades", cardC "5" "Hearts",
          cardC "5" "Spades", cardC "Q" "Hearts", cardC "Q" "Spades"]),
       ("warMode", .bool true), ("roundWinner", .null)] }

/-- Counterexample for C7 as stated: in a consecutive war — both top
cards share a rank and each player keeps at least 4 cards after the
reveal, but 8 cards from the previous tied exchange are still in play —
`applyMove("play")` leaves `cardsInPlay` with 16 cards, not exactly 8 as
the claim demands for every such state. -/
theorem war_tie_consecutive_counterexample :
    warRank (cardC "9" "Hearts") = warRank (cardC "9" "Spades") ∧
    ((warConsecState.getPlayerById "p1").map
      (fun p => p.hand.length)) = some 6 ∧
    ((warConsecState.getPlayerById "p2").map
      (fun p => p.hand.length)) = some 6 ∧
    csGetBool (warApplyMove warConsecState "p1" "play").customState
      "warMode" = true ∧
    (csGetCards (warApplyMove warConsecState "p1" "play").customState
      "cardsInPlay").length = 16 := by
  decide

/-! ## C10 -/

/-- Claim C10: in War's tie resolution, when after the tied reveal either
hand has fewer than 4 cards and both hands have exactly the same size
(both empty included), the whole contested pile is awarded to the
opponent of the acting player — never to the acting player, who keeps
only the remainder of their own hand. -/
theorem war_tie_equal_hands_pile_to_opponent (s : GameState)
    (pid : String) (ap op : Player) (ac oc : Card)
    (arest orest : List Card)
    (hfp : s.getPlayerById pid = some ap)
    (hfo : s.players.find? (fun r => r.id != pid) = some op)
    (hfo2 : s.players.find? (fun r => r.id == op.id) = some op)
    (hah : ap.hand = ac :: arest) (hoh : op.hand = oc :: orest)
    (htie : warRank ac = warRank oc)
    (heq : arest.length = orest.length)
    (hlt : arest.length < 4) :
    (((warApplyMove s pid "play").getPlayerById op.id).map Player.hand =
      some (orest ++ (csGetCards s.customState "cardsInPlay" ++
        [{ac with isFaceUp := true}, {oc with isFaceUp := true}]))) ∧
    (((warApplyMove s pid "play").getPlayerById pid).map Player.hand =
      some arest) ∧
    csGetBool (warApplyMove s pid "play").customState "warMode" = false ∧
    csGet (warApplyMove s pid "play").customState "roundWinner" =
      some (.str op.id) := by
  have h := warApplyMove_tie_short s pid ap op ac oc arest orest hfp hfo
    hfo2 hah hoh htie (Or.inl hlt)
  have hngt : ¬ arest.length > orest.length := by omega
  simp only [if_neg hngt] at h
  exact ⟨h.1, h.2.1, h.2.2.1, h.2.2.2.2⟩

/-- A War tie with equal one-card remainders on both sides. -/
def warEqualState : GameState :=
  { deck := [], discardPile := [],
    players :=
      [{ id := "p1", name := "Alice",
         hand := [cardC "5" "Hearts", cardC "2" "Hearts"], score := 2 },
       { id := "p2", name := "Bob",
         hand := [cardC "5" "Spades", cardC "3" "Hearts"], score := 2 }],
    currentPlayerId := "p1", round := 1,
    customState :=
      [("cardsInPlay", .cards []), ("warMode", .bool false),
       ("roundWinner", .null)] }

/-- Witness for C10: Alice acts; both players keep exactly one card after
the tied reveal; Bob — the opponent — receives the pile. -/
theorem war_tie_equal_hands_pile_to_opponent_witness :
    (warRank (cardC "5" "Hearts") = warRank (cardC "5" "Spades") ∧
     warEqualState.currentPlayerId = "p1") ∧
    (((warApplyMove warEqualState "p1" "play").getPlayerById "p2").map
       Player.hand =
     some ([cardC "3" "Hearts"] ++
       ([] ++ [{cardC "5" "Hearts" with isFaceUp := true},
               {cardC "5" "Spades" with isFaceUp := true}])) ∧
     ((warApplyMove warEqualState "p1" "play").getPlayerById "p1").map
       Player.hand = some [cardC "2" "Hearts"] ∧
     csGet (warApplyMove warEqualState "p1" "play").customState
       "roundWinner" = some (.str "p2")) := by
  have h := war_tie_equal_hands_pile_to_opponent warEqualState "p1"
    { id := "p1", name := "Alice",
      hand := [cardC "5" "Hearts", cardC "2" "Hearts"], score := 2 }
    { id := "p2", name := "Bob",
      hand := [cardC "5" "Spades", cardC "3" "Hearts"], score := 2 }
    (cardC "5" "Hearts") (cardC "5" "Spades")
    [cardC "2" "Hearts"] [cardC "3" "Hearts"]
    (by decide) (by decide) (by decide) (by decide) (by decide)
    (by decide) (by decide) (by decide)
  refine ⟨⟨by decide, by decide⟩, ?_, ?_, ?_⟩
  · have := h.1
    simpa using this
  · exact h.2.1
  · exact h.2.2.2

/-! ## C2: `GameState.clone` over an explicit card heap

The source's containers hold references to shared mutable `Card` objects.
`Deck`/`Hand` constructors and `getCards()` copy the **arrays**, so the
containers themselves are value-like, but the card objects inside them
are not copied by `clone` — only `customState` goes through
`JSON.parse(JSON.stringify(...))`, which re-creates its card objects.
This model makes the object identities explicit: cards live on a heap of
`CardObj`s addressed by `Ref`s. -/

/-- The fields of one mutable card object. -/
structure CardObj where
  id : String
  name : String
  isFaceUp : Bool
deriving DecidableEq, Repr

/-- An object identity on the card heap. -/
abbrev Ref := Nat

/-- The card heap: index = object identity. -/
abbrev Heap := List CardObj

/-- Dereference. -/
def heapGet (h : Heap) (r : Ref) : Option CardObj := h.get? r

/-- Overwrite one object. -/
def heapSet (h : Heap) (r : Ref) (c : CardObj) : Heap := h.set r c

/-- A player whose hand holds card references. -/
structure HPlayer where
  id : String
  name : String
  hand : List Ref
  score : Nat
deriving DecidableEq, Repr

/-- `customState` values over the heap: card arrays hold references. -/
inductive HCVal where
  | bool (b : Bool)
  | str (s : String)
  | null
  | cards (cs : List Ref)
deriving DecidableEq, Repr

/-- `GameState` over the heap. -/
structure HGameState where
  deck : List Ref
  discardPile : List Ref
  players : List HPlayer
  currentPlayerId : String
  round : Nat
  customState : List (String × HCVal)
deriving DecidableEq, Repr

/-- `Player.clone`: a fresh `Hand` array holding the same card refs. -/
def HPlayer.clone (p : HPlayer) : HPlayer :=
  { id := p.id, name := p.name, hand := p.hand, score := p.score }

/-- The JSON round-trip on a card array: every object that the refs reach
is re-created as a fresh object (appended to the heap) with the same
field values; a dangling ref contributes nothing. -/
def allocCards (h : Heap) : List Ref → Heap × List Ref
  | [] => (h, [])
  | r :: rs =>
    match heapGet h r with
    | some c =>
        let rec1 := allocCards (h ++ [c]) rs
        (rec1.1, h.length :: rec1.2)
    | none => allocCards h rs

/-- The JSON round-trip on one stored value. -/
def cloneHCVal (h : Heap) (v : HCVal) : Heap × HCVal :=
  match v with
  | .cards rs =>
      let r := allocCards h rs
      (r.1, .cards r.2)
  | v => (h, v)

/-- The JSON round-trip on the whole `customState` object. -/
def cloneCS (h : Heap) : List (String × HCVal) →
    Heap × List (String × HCVal)
  | [] => (h, [])
  | kv :: rest =>
    let r1 := cloneHCVal h kv.2
    let r2 := cloneCS r1.1 rest
    (r2.1, (kv.1, r1.2) :: r2.2)

/-- `GameState.clone` over the heap: fresh container arrays holding the
same card references, cloned players, and a JSON-deep-copied
`customState` with freshly allocated card objects. -/
def HGameState.clone (h : Heap) (s : HGameState) :
    Heap × HGameState :=
  let r := cloneCS h s.customState
  (r.1,
   { deck := s.deck
     discardPile := s.discardPile
     players := s.players.map HPlayer.clone
     currentPlayerId := s.currentPlayerId
     round := s.round
     customState := r.2 })

/-- `card.isFaceUp = b` through a reference: one heap object changes. -/
def setFaceUp (h : Heap) (r : Ref) (b : Bool) : Heap :=
  match heapGet h r with
  | some c => heapSet h r { c with isFaceUp := b }
  | none => h

/-- The card values a container's references denote on a heap. -/
def denoteCards (h : Heap) (rs : List Ref) : List (Option CardObj) :=
  rs.map (heapGet h)

/-- All card refs stored in a `customState`. -/
def customCardRefs : List (String × HCVal) → List Ref
  | [] => []
  | kv :: rest =>
    match kv.2 with
    | .cards rs => rs ++ customCardRefs rest
    | _ => customCardRefs rest

/-- A one-card heap and a state whose deck holds that card. -/
def hHeap0 : Heap :=
  [{ id := "A-Hearts", name := "A of Hearts", isFaceUp := false }]

/-- The original state: the single card sits in the deck. -/
def hS0 : HGameState :=
  { deck := [0], discardPile := [], players := [], currentPlayerId := "",
    round := 1, customState := [] }

/-- Counterexample for C2 as stated: `clone` allocates nothing for the
deck — the clone's deck holds the same card reference — so setting the
contained card's `isFaceUp` through the clone changes the card value the
original `GameState` denotes.  The clone is not fully independent. -/
theorem clone_shares_card_objects_counterexample :
    (HGameState.clone hHeap0 hS0).1 = hHeap0 ∧
    (HGameState.clone hHeap0 hS0).2.deck = hS0.deck ∧
    denoteCards (setFaceUp hHeap0 0 true) hS0.deck ≠
      denoteCards hHeap0 hS0.deck ∧
    denoteCards (setFaceUp hHeap0 0 true)
        (HGameState.clone hHeap0 hS0).2.deck =
      denoteCards (setFaceUp hHeap0 0 true) hS0.deck := by
  decide

/-- `allocCards` only appends to the heap. -/
theorem allocCards_extends (rs : List Ref) :
    ∀ h : Heap, ∃ t, (allocCards h rs).1 = h ++ t := by
  induction rs with
  | nil => intro h; exact ⟨[], by simp [allocCards]⟩
  | cons r rest ih =>
      intro h
      unfold allocCards
      cases hg : heapGet h r with
      | some c =>
          dsimp only
          rcases ih (h ++ [c]) with ⟨t, ht⟩
          exact ⟨[c] ++ t, by rw [ht, List.append_assoc]⟩
      | none => exact ih h

/-- `allocCards` returns only refs at or beyond the old heap end. -/
theorem allocCards_fresh (rs : List Ref) :
    ∀ (h : Heap) (x : Ref), x ∈ (allocCards h rs).2 → h.length ≤ x := by
  induction rs with
  | nil => intro h x hx; simp [allocCards] at hx
  | cons r rest ih =>
      intro h x hx
      unfold allocCards at hx
      cases hg : heapGet h r with
      | some c =>
          rw [hg] at hx
          simp only [List.mem_cons] at hx
          rcases hx with hx | hx
          · exact Nat.le_of_eq hx.symm
          · have h2 := ih (h ++ [c]) x hx
            simp only [List.length_append, List.length_cons,
              List.length_nil] at h2
            omega
      | none =>
          rw [hg] at hx
          exact ih h x hx

/-- The JSON round-trip on one value only appends to the heap. -/
theorem cloneHCVal_extends (h : Heap) (v : HCVal) :
    ∃ t, (cloneHCVal h v).1 = h ++ t := by
  cases v with
  | cards rs => exact allocCards_extends rs h
  | bool b => exact ⟨[], by simp [cloneHCVal]⟩
  | str t => exact ⟨[], by simp [cloneHCVal]⟩
  | null => exact ⟨[], by simp [cloneHCVal]⟩

/-- The JSON round-trip on `customState` only appends to the heap. -/
theorem cloneCS_extends (cs : List (String × HCVal)) :
    ∀ h : Heap, ∃ t, (cloneCS h cs).1 = h ++ t := by
  induction cs with
  | nil => intro h; exact ⟨[], by simp [cloneCS]⟩
  | cons kv rest ih =>
      intro h
      unfold cloneCS
      rcases cloneHCVal_extends h kv.2 with ⟨t1, ht1⟩
      rcases ih (cloneHCVal h kv.2).1 with ⟨t2, ht2⟩
      exact ⟨t1 ++ t2, by
        dsimp only
        rw [ht2, ht1, List.append_assoc]⟩

/-- Every card ref in a cloned `customState` is freshly allocated. -/
theorem cloneCS_fresh (cs : List (String × HCVal)) :
    ∀ (h : Heap) (x : Ref), x ∈ customCardRefs (cloneCS h cs).2 →
      h.length ≤ x := by
  induction cs with
  | nil => intro h x hx; simp [cloneCS, customCardRefs] at hx
  | cons kv rest ih =>
      intro h x hx
      unfold cloneCS at hx
      dsimp only at hx
      cases hv : kv.2 with
      | cards rs =>
          rw [hv] at hx
          unfold cloneHCVal at hx
          dsimp only at hx
          unfold customCardRefs at hx
          dsimp only at hx
          rcases List.mem_append.mp hx with hx | hx
          · exact allocCards_fresh rs h x hx
          · rcases allocCards_extends rs h with ⟨t, ht⟩
            have h2 := ih (allocCards h rs).1 x hx
            rw [ht] at h2
            simp only [List.length_append] at h2
            omega
      | bool b =>
          rw [hv] at hx
          unfold cloneHCVal customCardRefs at hx
          dsimp only at hx
          exact ih h x hx
      | str t =>
          rw [hv] at hx
          unfold cloneHCVal customCardRefs at hx
          dsimp only at hx
          exact ih h x hx
      | null =>
          rw [hv] at hx
          unfold cloneHCVal customCardRefs at hx
          dsimp only at hx
          exact ih h x hx

/-- Claim C2, amended: `clone` copies every container array — deck,
discard pile, players list, hands — and JSON-deep-copies `customState`,
freshly allocating the card objects stored there and modifying no
existing heap object, so structural mutations (drawing, adding, removing
cards) on one side never affect the other; but the card objects
referenced by the deck, the discard pile and the hands are shared between
original and clone, so an in-place mutation of a shared card's
`isFaceUp` through either side is visible through the other. -/
theorem clone_containers_fresh_cards_shared (h : Heap) (s : HGameState) :
    (HGameState.clone h s).2.deck = s.deck ∧
    (HGameState.clone h s).2.discardPile = s.discardPile ∧
    (HGameState.clone h s).2.players.map HPlayer.hand =
      s.players.map HPlayer.hand ∧
    (∀ r : Ref, r < h.length →
      heapGet (HGameState.clone h s).1 r = heapGet h r) ∧
    (∀ x ∈ customCardRefs (HGameState.clone h s).2.customState,
      h.length ≤ x) := by
  refine ⟨rfl, rfl, ?_, ?_, ?_⟩
  · unfold HGameState.clone
    dsimp only
    rw [List.map_map]
    rfl
  · intro r hr
    unfold HGameState.clone heapGet
    dsimp only
    rcases cloneCS_extends s.customState h with ⟨t, ht⟩
    rw [ht]
    exact List.get?_append hr
  · intro x hx
    unfold HGameState.clone at hx
    dsimp only at hx
    exact cloneCS_fresh s.customState h x hx

/-! ## C3: card conservation -/

/-- The card ids tracked by a War state: deck, discard pile, all hands,
and the rules-tracked `cardsInPlay` pile in `customState`. -/
def trackedWarL (s : GameState) : List String :=
  s.deck.map Card.id ++ (s.discardPile.map Card.id ++
    (((s.players.map (fun p => p.hand.map Card.id)).join) ++
      (csGetCards s.customState "cardsInPlay").map Card.id))

/-- The card ids tracked by a Go Fish state: deck, discard pile and all
hands (Go Fish stores no cards in `customState` — its `books` map records
only ranks). -/
def trackedGFL (s : GameState) : List String :=
  s.deck.map Card.id ++ (s.discardPile.map Card.id ++
    ((s.players.map (fun p => p.hand.map Card.id)).join))

/-- The war loop never changes the combined multiset of the two hands
plus the in-play pile. -/
theorem warCommit_perm (n : Nat) : ∀ (p q : Player) (cip : List Card),
    ((warCommit n p q cip).1.hand.map Card.id ++
      ((warCommit n p q cip).2.1.hand.map Card.id ++
        (warCommit n p q cip).2.2.map Card.id)).Perm
      (p.hand.map Card.id ++ (q.hand.map Card.id ++ cip.map Card.id)) := by
  induction n with
  | zero => intro p q cip; rfl
  | succ m ih =>
      intro p q cip
      unfold warCommit
      rcases hp : p.hand with _ | ⟨pc, prest⟩
      · rcases hq : q.hand with _ | ⟨qc, qrest⟩
        · dsimp only
          try rw [hp]
          try rw [hq]
          try exact List.Perm.refl _
        · dsimp only
          try rw [hp]
          try rw [hq]
          try exact List.Perm.refl _
      · rcases hq : q.hand with _ | ⟨qc, qrest⟩
        · dsimp only
          try rw [hp]
          try rw [hq]
          try exact List.Perm.refl _
        · dsimp only
          rw [removeCardById_head, removeCardById_head]
          refine (ih _ _ _).trans ?_
          dsimp only
          refine List.perm_iff_count.mpr ?_
          intro a
          simp only [List.map_append, List.map_cons, List.map_nil,
            List.count_append, List.count_cons, List.count_nil]
          ring

/-- The war loop does not change either player's identity. -/
theorem warCommit_ids (n : Nat) : ∀ (p q : Player) (cip : List Card),
    (warCommit n p q cip).1.id = p.id ∧
    (warCommit n p q cip).2.1.id = q.id := by
  induction n with
  | zero => intro p q cip; exact ⟨rfl, rfl⟩
  | succ m ih =>
      intro p q cip
      unfold warCommit
      rcases hp : p.hand with _ | ⟨pc, prest⟩
      · rcases hq : q.hand with _ | ⟨qc, qrest⟩
        · exact ⟨rfl, rfl⟩
        · exact ⟨rfl, rfl⟩
      · rcases hq : q.hand with _ | ⟨qc, qrest⟩
        · exact ⟨rfl, rfl⟩
        · dsimp only
          exact ih _ _ _

/-- `warHandleRoundWin` tracked cards, winner = first of two players:
the result's deck, discard and hands hold (as a multiset) the original
deck, discard and hands plus the contested pile, and the pile empties. -/
theorem warHandleRoundWin_tracked_fst (s : GameState) (p q : Player)
    (cards : List Card) (hps : s.players = [p, q])
    (hqp : (q.id == p.id) = false) :
    (trackedWarL (warHandleRoundWin s p.id cards)).Perm
      (s.deck.map Card.id ++ (s.discardPile.map Card.id ++
        ((p.hand.map Card.id ++ q.hand.map Card.id) ++
          cards.map Card.id))) := by
  have hpq : (p.id == q.id) = false := by
    rw [beq_eq_false_iff_ne] at hqp ⊢
    exact fun h => hqp h.symm
  have hf1 : List.find? (fun r => r.id == p.id) [p, q] = some p := by simp
  unfold warHandleRoundWin GameState.getPlayerById
  rw [hps, hf1]
  dsimp only
  simp only [setPlayer, beq_self_eq_true, if_true, hqp, hpq,
    Bool.false_eq_true, if_false, List.find?, bne_self_eq_false, bne,
    Bool.not_false, Bool.not_true]
  unfold trackedWarL
  dsimp only
  rw [csGetCards_csSet_ne _ _ _ _ (by decide),
    csGetCards_csSet_ne _ _ _ _ (by decide), csGetCards_csSet_same]
  refine List.perm_iff_count.mpr ?_
  intro a
  simp only [List.map_append, List.map_cons, List.map_nil,
    List.flatten_cons, List.flatten_nil, List.count_append,
    List.count_cons, List.count_nil, List.append_nil]
  ring

/-- `warHandleRoundWin` tracked cards, winner = second of two players. -/
theorem warHandleRoundWin_tracked_snd (s : GameState) (p q : Player)
    (cards : List Card) (hps : s.players = [p, q])
    (hqp : (q.id == p.id) = false) :
    (trackedWarL (warHandleRoundWin s q.id cards)).Perm
      (s.deck.map Card.id ++ (s.discardPile.map Card.id ++
        ((p.hand.map Card.id ++ q.hand.map Card.id) ++
          cards.map Card.id))) := by
  have hpq : (p.id == q.id) = false := by
    rw [beq_eq_false_iff_ne] at hqp ⊢
    exact fun h => hqp h.symm
  have hf1 : List.find? (fun r => r.id == q.id) [p, q] = some q := by
    simp [hpq]
  unfold warHandleRoundWin GameState.getPlayerById
  rw [hps, hf1]
  dsimp only
  simp only [setPlayer, beq_self_eq_true, if_true, hpq, Bool.false_eq_true,
    if_false, List.find?, bne_self_eq_false, bne, Bool.not_false,
    Bool.not_true]
  unfold trackedWarL
  dsimp only
  rw [csGetCards_csSet_ne _ _ _ _ (by decide),
    csGetCards_csSet_ne _ _ _ _ (by decide), csGetCards_csSet_same]
  refine List.perm_iff_count.mpr ?_
  intro a
  simp only [List.map_append, List.map_cons, List.map_nil,
    List.flatten_cons, List.flatten_nil, List.count_append,
    List.count_cons, List.count_nil, List.append_nil]
  ring

/-- `WarRules.applyMove` conserves the tracked card ids when the acting
player is the first of the two players. -/
theorem warApplyMove_tracked_fst (s : GameState) (p q : Player)
    (hps : s.players = [p, q]) (hqp : (q.id == p.id) = false) :
    (trackedWarL (warApplyMove s p.id "play")).Perm (trackedWarL s) := by
  have hpq : (p.id == q.id) = false := by
    rw [beq_eq_false_iff_ne] at hqp ⊢
    exact fun h => hqp h.symm
  have hf1 : List.find? (fun r => r.id == p.id) [p, q] = some p := by simp
  have hf2 : List.find? (fun r => r.id != p.id) [p, q] = some q := by
    simp [List.find?, bne, hqp]
  unfold warApplyMove
  rw [if_neg (by decide)]
  unfold GameState.getPlayerById
  rw [hps, hf1, hf2]
  dsimp only
  rcases hph : p.hand with _ | ⟨pc, prest⟩
  · rcases hoh : q.hand with _ | ⟨qc, qrest⟩ <;> exact List.Perm.refl _
  · rcases hoh : q.hand with _ | ⟨qc, qrest⟩
    · exact List.Perm.refl _
    · dsimp only
      rw [removeCardById_head, removeCardById_head]
      simp only [setPlayer, beq_self_eq_true, if_true, hpq, hqp,
        Bool.false_eq_true, if_false]
      split
      · refine (warHandleRoundWin_tracked_fst _ { p with hand := prest }
              { q with hand := qrest } _ rfl hqp).trans ?_
        unfold trackedWarL
        rw [hps]
        refine List.perm_iff_count.mpr ?_
        intro a
        simp only [hph, hoh, List.map_append, List.map_cons, List.map_nil,
          List.flatten_cons, List.flatten_nil, List.count_append,
          List.count_cons, List.count_nil, List.append_nil]
        ring
      · split
        · refine (warHandleRoundWin_tracked_snd _ { p with hand := prest }
              { q with hand := qrest } _ rfl hqp).trans ?_
          unfold trackedWarL
          rw [hps]
          refine List.perm_iff_count.mpr ?_
          intro a
          simp only [hph, hoh, List.map_append, List.map_cons, List.map_nil,
            List.flatten_cons, List.flatten_nil, List.count_append,
            List.count_cons, List.count_nil, List.append_nil]
          ring
        · split
          · split
            · refine (warHandleRoundWin_tracked_fst _ { p with hand := prest }
              { q with hand := qrest } _ rfl hqp).trans ?_
              unfold trackedWarL
              rw [hps]
              refine List.perm_iff_count.mpr ?_
              intro a
              simp only [hph, hoh, List.map_append, List.map_cons, List.map_nil,
                List.flatten_cons, List.flatten_nil, List.count_append,
                List.count_cons, List.count_nil, List.append_nil]
              ring
            · refine (warHandleRoundWin_tracked_snd _ { p with hand := prest }
              { q with hand := qrest } _ rfl hqp).trans ?_
              unfold trackedWarL
              rw [hps]
              refine List.perm_iff_count.mpr ?_
              intro a
              simp only [hph, hoh, List.map_append, List.map_cons, List.map_nil,
                List.flatten_cons, List.flatten_nil, List.count_append,
                List.count_cons, List.count_nil, List.append_nil]
              ring
          · have hr1 := (warCommit_ids 3 { p with hand := prest }
              { q with hand := qrest }
              (csGetCards s.customState "cardsInPlay" ++
                [{ pc with isFaceUp := true },
                  { qc with isFaceUp := true }])).1
            have hr2 := (warCommit_ids 3 { p with hand := prest }
              { q with hand := qrest }
              (csGetCards s.customState "cardsInPlay" ++
                [{ pc with isFaceUp := true },
                  { qc with isFaceUp := true }])).2
            have hcp := warCommit_perm 3 { p with hand := prest }
              { q with hand := qrest }
              (csGetCards s.customState "cardsInPlay" ++
                [{ pc with isFaceUp := true },
                  { qc with isFaceUp := true }])
            simp only [setPlayer, hr1, hr2, beq_self_eq_true, if_true, hpq,
              hqp, Bool.false_eq_true, if_false]
            unfold trackedWarL
            dsimp only
            rw [csGetCards_csSet_same, hps]
            refine List.perm_iff_count.mpr ?_
            intro a
            have hca := List.perm_iff_count.mp hcp a
            simp only [hph, hoh, List.map_append, List.map_cons, List.map_nil,
              List.flatten_cons, List.flatten_nil, List.count_append,
              List.count_cons, List.count_nil, List.append_nil] at hca ⊢
            omega

/-- `WarRules.applyMove` conserves the tracked card ids when the acting
player is the second of the two players. -/
theorem warApplyMove_tracked_snd (s : GameState) (p q : Player)
    (hps : s.players = [p, q]) (hqp : (q.id == p.id) = false) :
    (trackedWarL (warApplyMove s q.id "play")).Perm (trackedWarL s) := by
  have hpq : (p.id == q.id) = false := by
    rw [beq_eq_false_iff_ne] at hqp ⊢
    exact fun h => hqp h.symm
  have hf1 : List.find? (fun r => r.id == q.id) [p, q] = some q := by
    simp [hpq]
  have hf2 : List.find? (fun r => r.id != q.id) [p, q] = some p := by
    simp [List.find?, bne, hpq]
  unfold warApplyMove
  rw [if_neg (by decide)]
  unfold GameState.getPlayerById
  rw [hps, hf1, hf2]
  dsimp only
  rcases hqh : q.hand with _ | ⟨qc, qrest⟩
  · rcases hph : p.hand with _ | ⟨pc, prest⟩ <;> exact List.Perm.refl _
  · rcases hph : p.hand with _ | ⟨pc, prest⟩
    · exact List.Perm.refl _
    · dsimp only
      rw [removeCardById_head, removeCardById_head]
      simp only [setPlayer, beq_self_eq_true, if_true, hpq, hqp,
        Bool.false_eq_true, if_false]
      split
      · refine (warHandleRoundWin_tracked_snd _ { p with hand := prest }
          { q with hand := qrest } _ rfl hqp).trans ?_
        unfold trackedWarL
        rw [hps]
        refine List.perm_iff_count.mpr ?_
        intro a
        simp only [hph, hqh, List.map_append, List.map_cons, List.map_nil,
          List.flatten_cons, List.flatten_nil, List.count_append,
          List.count_cons, List.count_nil, List.append_nil]
        ring
      · split
        · refine (warHandleRoundWin_tracked_fst _ { p with hand := prest }
            { q with hand := qrest } _ rfl hqp).trans ?_
          unfold trackedWarL
          rw [hps]
          refine List.perm_iff_count.mpr ?_
          intro a
          simp only [hph, hqh, List.map_append, List.map_cons, List.map_nil,
            List.flatten_cons, List.flatten_nil, List.count_append,
            List.count_cons, List.count_nil, List.append_nil]
          ring
        · split
          · split
            · refine (warHandleRoundWin_tracked_snd _ { p with hand := prest }
                { q with hand := qrest } _ rfl hqp).trans ?_
              unfold trackedWarL
              rw [hps]
              refine List.perm_iff_count.mpr ?_
              intro a
              simp only [hph, hqh, List.map_append, List.map_cons,
                List.map_nil, List.flatten_cons, List.flatten_nil,
                List.count_append, List.count_cons, List.count_nil,
                List.append_nil]
              ring
            · refine (warHandleRoundWin_tracked_fst _ { p with hand := prest }
                { q with hand := qrest } _ rfl hqp).trans ?_
              unfold trackedWarL
              rw [hps]
              refine List.perm_iff_count.mpr ?_
              intro a
              simp only [hph, hqh, List.map_append, List.map_cons,
                List.map_nil, List.flatten_cons, List.flatten_nil,
                List.count_append, List.count_cons, List.count_nil,
                List.append_nil]
              ring
          · have hr1 := (warCommit_ids 3 { q with hand := qrest }
              { p with hand := prest }
              (csGetCards s.customState "cardsInPlay" ++
                [{ qc with isFaceUp := true },
                  { pc with isFaceUp := true }])).1
            have hr2 := (warCommit_ids 3 { q with hand := qrest }
              { p with hand := prest }
              (csGetCards s.customState "cardsInPlay" ++
                [{ qc with isFaceUp := true },
                  { pc with isFaceUp := true }])).2
            have hcp := warCommit_perm 3 { q with hand := qrest }
              { p with hand := prest }
              (csGetCards s.customState "cardsInPlay" ++
                [{ qc with isFaceUp := true },
                  { pc with isFaceUp := true }])
            simp only [setPlayer, hr1, hr2, beq_self_eq_true, if_true, hpq,
              hqp, Bool.false_eq_true, if_false]
            unfold trackedWarL
            dsimp only
            rw [csGetCards_csSet_same, hps]
            refine List.perm_iff_count.mpr ?_
            intro a
            have hca := List.perm_iff_count.mp hcp a
            simp only [hph, hqh, List.map_append, List.map_cons,
              List.map_nil, List.flatten_cons, List.flatten_nil,
              List.count_append, List.count_cons, List.count_nil,
              List.append_nil] at hca ⊢
            omega

/-- An id-preserving in-place update never changes the id sequence. -/
theorem setPlayer_map_id (ps : List Player) (pid : String)
    (f : Player → Player) (hf : ∀ x, (f x).id = x.id) :
    (setPlayer ps pid f).map Player.id = ps.map Player.id := by
  induction ps with
  | nil => rfl
  | cons r rest ih =>
      unfold setPlayer
      by_cases h : (r.id == pid) = true
      · rw [if_pos h]
        simp [hf]
      · rw [if_neg h]
        simp [ih]

/-- Overwriting the player at an id with a player carrying that same id
never changes the id sequence. -/
theorem setPlayer_map_id_const (ps : List Player) (pid : String) (w : Player)
    (hw : w.id = pid) :
    (setPlayer ps pid (fun _ => w)).map Player.id = ps.map Player.id := by
  induction ps with
  | nil => rfl
  | cons r rest ih =>
      unfold setPlayer
      by_cases h : (r.id == pid) = true
      · rw [if_pos h]
        have hr : r.id = pid := by simpa using h
        simp [hw, hr]
      · rw [if_neg h]
        simp [ih]

/-- The score-refresh update never changes the id sequence. -/
theorem setPlayer_map_id_score (ps : List Player) (pid : String) :
    (setPlayer ps pid
        (fun p => { p with score := p.hand.length })).map Player.id =
      ps.map Player.id :=
  setPlayer_map_id _ _ _ (fun _ => rfl)

/-- `warHandleRoundWin` never changes the sequence of player ids. -/
theorem warHandleRoundWin_map_id (st : GameState) (wid : String)
    (cards : List Card) :
    (warHandleRoundWin st wid cards).players.map Player.id =
      st.players.map Player.id := by
  unfold warHandleRoundWin
  cases hf : st.getPlayerById wid with
  | none => rfl
  | some w =>
      have hwid : w.id = wid := find_id_eq _ _ _ hf
      dsimp only
      split
      · dsimp only
        rw [setPlayer_map_id_score, setPlayer_map_id_const]
        exact hwid
      · dsimp only
        rw [setPlayer_map_id_score, setPlayer_map_id_score,
          setPlayer_map_id_const]
        exact hwid

/-- `WarRules.applyMove` never changes the sequence of player ids. -/
theorem warApplyMove_map_id (st : GameState) (pid mv : String) :
    (warApplyMove st pid mv).players.map Player.id =
      st.players.map Player.id := by
  unfold warApplyMove
  split
  · rfl
  · cases hf : st.getPlayerById pid with
    | none =>
        cases hf2 : st.players.find? (fun p => p.id != pid) <;> rfl
    | some player =>
        have hpid : player.id = pid := find_id_eq _ _ _ hf
        cases hf2 : st.players.find? (fun p => p.id != pid) with
        | none => rfl
        | some other =>
            dsimp only
            rcases hph : player.hand with _ | ⟨pc, prest⟩
            · rcases hoh : other.hand with _ | ⟨oc, orest⟩ <;> rfl
            · rcases hoh : other.hand with _ | ⟨oc, orest⟩
              · rfl
              · dsimp only
                split
                · rw [warHandleRoundWin_map_id]
                  dsimp only
                  rw [setPlayer_map_id_const, setPlayer_map_id_const]
                  · exact hpid
                  · rfl
                · split
                  · rw [warHandleRoundWin_map_id]
                    dsimp only
                    rw [setPlayer_map_id_const, setPlayer_map_id_const]
                    · exact hpid
                    · rfl
                  · split
                    · split
                      · rw [warHandleRoundWin_map_id]
                        dsimp only
                        rw [setPlayer_map_id_const, setPlayer_map_id_const]
                        · exact hpid
                        · rfl
                      · rw [warHandleRoundWin_map_id]
                        dsimp only
                        rw [setPlayer_map_id_const, setPlayer_map_id_const]
                        · exact hpid
                        · rfl
                    · dsimp only
                      rw [setPlayer_map_id_const, setPlayer_map_id_const,
                        setPlayer_map_id_const, setPlayer_map_id_const]
                      all_goals first
                        | rfl
                        | exact (warCommit_ids 3 _ _ _).1.trans hpid
                        | exact hpid

/-- `applyMove` with an id that matches neither of the two players falls
through every lookup and returns the state unchanged. -/
theorem warApplyMove_unknown (s : GameState) (pid : String) (a b : Player)
    (hps : s.players = [a, b]) (ha : (a.id == pid) = false)
    (hb : (b.id == pid) = false) :
    warApplyMove s pid "play" = s := by
  unfold warApplyMove
  rw [if_neg (by decide)]
  unfold GameState.getPlayerById
  rw [hps]
  have hf1 : List.find? (fun r => r.id == pid) [a, b] = none := by
    simp [List.find?, ha, hb]
  have hf2 : List.find? (fun r => r.id != pid) [a, b] = some a := by
    simp [List.find?, bne, ha]
  rw [hf1, hf2]

/-- `WarRules.applyMove` conserves the tracked card ids for any move
player id, in any two-player state with distinct ids. -/
theorem warApplyMove_tracked_any (s : GameState) (a b : Player)
    (pid : String) (hps : s.players = [a, b])
    (hqp : (b.id == a.id) = false) :
    (trackedWarL (warApplyMove s pid "play")).Perm (trackedWarL s) := by
  by_cases h1 : a.id = pid
  · subst h1
    exact warApplyMove_tracked_fst s a b hps hqp
  · by_cases h2 : b.id = pid
    · subst h2
      exact warApplyMove_tracked_snd s a b hps hqp
    · rw [warApplyMove_unknown s pid a b hps (beq_eq_false_iff_ne.mpr h1)
        (beq_eq_false_iff_ne.mpr h2)]

/-- One engine step of a War game: apply the move, then hand the turn on
unless the game has ended (`BaseGame.playMove` after its checks). -/
def warStep (s : GameState) (pid : String) : GameState :=
  let s2 := warApplyMove s pid "play"
  if warIsGameOver s2 then s2 else warNextTurn s2

/-- `warStep` conserves the tracked card ids. -/
theorem warStep_tracked (s : GameState) (a b : Player) (pid : String)
    (hps : s.players = [a, b]) (hqp : (b.id == a.id) = false) :
    (trackedWarL (warStep s pid)).Perm (trackedWarL s) := by
  unfold warStep
  dsimp only
  split
  · exact warApplyMove_tracked_any s a b pid hps hqp
  · exact warApplyMove_tracked_any s a b pid hps hqp

/-- `warStep` never changes the sequence of player ids. -/
theorem warStep_map_id (s : GameState) (pid : String) :
    (warStep s pid).players.map Player.id = s.players.map Player.id := by
  unfold warStep
  dsimp only
  split
  · exact warApplyMove_map_id s pid "play"
  · exact warApplyMove_map_id s pid "play"

/-- A player list whose id image is a pair is a pair with those ids. -/
theorem map_id_two (ps : List Player) (a b : String)
    (h : ps.map Player.id = [a, b]) :
    ∃ x y, ps = [x, y] ∧ x.id = a ∧ y.id = b := by
  rcases ps with _ | ⟨x, _ | ⟨y, _ | ⟨z, t⟩⟩⟩
  · simp at h
  · simp at h
  · simp only [List.map_cons, List.map_nil, List.cons.injEq,
      and_true] at h
    exact ⟨x, y, rfl, h.1, h.2⟩
  · simp at h

/-- `WarRules.initializeGame` from a fresh two-player state: the tracked
ids are exactly the shuffled deck's, and the players keep their ids. -/
theorem warInitGame_tracked (sh : List Card → List Card)
    (s0 s1 : GameState) (p q : Player) (hp : s0.players = [p, q])
    (hph : p.hand = []) (hqh : q.hand = []) (hdp : s0.discardPile = [])
    (h1 : warInitGame sh s0 = some s1) :
    (trackedWarL s1).Perm ((sh s0.deck).map Card.id) ∧
    s1.players.map Player.id = [p.id, q.id] := by
  unfold warInitGame at h1
  rw [hp] at h1
  dsimp only at h1
  injection h1 with h1
  subst h1
  constructor
  · unfold trackedWarL
    dsimp only
    rw [hdp, hph, hqh]
    rw [csGetCards_csSet_ne _ _ _ _ (by decide),
      csGetCards_csSet_ne _ _ _ _ (by decide), csGetCards_csSet_same]
    have hjoin : ((sh s0.deck).take ((sh s0.deck).length / 2) ++
        (((sh s0.deck).drop ((sh s0.deck).length / 2)).take
            ((sh s0.deck).length / 2) ++
          ((sh s0.deck).drop ((sh s0.deck).length / 2)).drop
            ((sh s0.deck).length / 2))) = sh s0.deck := by
      rw [List.take_append_drop, List.take_append_drop]
    refine List.perm_iff_count.mpr ?_
    intro c
    have hc := congrArg (fun l => List.count c (List.map Card.id l)) hjoin
    simp only [List.map_append, List.count_append] at hc
    simp only [List.join, List.map_append, List.map_cons, List.map_nil,
      List.flatten_cons, List.flatten_nil, List.count_append,
      List.count_nil, List.append_nil, List.nil_append]
    omega
  · rfl

/-- The states a two-player War game can reach: the dealt state right
after `initializeGame` on a freshly created game (under any shuffle
permutation of the original deck `D0`), and every state obtained from a
reachable one by an accepted `applyMove` (the mover exists, it is their
turn, `validateMove` passes) followed by the engine's `nextTurn` unless
the game has ended. -/
inductive WarReach (D0 : List Card) (p q : Player) : GameState → Prop where
  | init (sh : List Card → List Card) (s0 s1 : GameState)
      (hsh : (sh D0).Perm D0)
      (hp : s0.players = [p, q]) (hph : p.hand = []) (hqh : q.hand = [])
      (hd : s0.deck = D0) (hdp : s0.discardPile = [])
      (h1 : warInitGame sh s0 = some s1) : WarReach D0 p q s1
  | step (s : GameState) (pid : String) (hr : WarReach D0 p q s)
      (hv : (pid == s.currentPlayerId &&
        ((s.getPlayerById pid).map
          (fun pl => warValidateMove s pl "play")).getD false) = true) :
      WarReach D0 p q (warStep s pid)

/-- Conservation along War reachability: every reachable state keeps the
two player ids and its tracked card ids are a permutation of the original
deck's. -/
theorem warReach_conserved (D0 : List Card) (p q : Player) (s : GameState)
    (hpq : p.id ≠ q.id) (hr : WarReach D0 p q s) :
    s.players.map Player.id = [p.id, q.id] ∧
    (trackedWarL s).Perm (D0.map Card.id) := by
  induction hr with
  | init sh s0 s1 hsh hp hph hqh hd hdp h1 =>
      obtain ⟨hperm, hids⟩ := warInitGame_tracked sh s0 s1 p q hp hph hqh hdp h1
      refine ⟨hids, hperm.trans ?_⟩
      rw [hd]
      exact hsh.map Card.id
  | step s pid hr hv ih =>
      obtain ⟨hids, hperm⟩ := ih
      obtain ⟨a, b, hps, ha, hb⟩ := map_id_two _ _ _ hids
      have hqp : (b.id == a.id) = false := by
        rw [beq_eq_false_iff_ne, ha, hb]
        exact fun h => hpq h.symm
      constructor
      · rw [warStep_map_id, hids]
      · exact (warStep_tracked s a b pid hps hqp).trans hperm

/-! ## Go Fish card conservation -/

/-- All card ids held in hands, in player order. -/
def handsIds (ps : List Player) : List String :=
  (ps.map (fun p => p.hand.map Card.id)).flatten

/-- The in-place update splits the player list at the first id match. -/
theorem setPlayer_split (ps : List Player) (pid : String) (t : Player)
    (f : Player → Player)
    (hf : ps.find? (fun r => r.id == pid) = some t) :
    ∃ pre post, ps = pre ++ t :: post ∧
      setPlayer ps pid f = pre ++ f t :: post ∧
      ∀ x ∈ pre, (x.id == pid) = false := by
  induction ps with
  | nil => simp [List.find?] at hf
  | cons r rest ih =>
      by_cases h : (r.id == pid) = true
      · have hfr : List.find? (fun x => x.id == pid) (r :: rest) = some r := by
          simp [List.find?, h]
        rw [hfr] at hf
        injection hf with hf
        subst hf
        refine ⟨[], rest, rfl, ?_, by simp⟩
        unfold setPlayer
        rw [if_pos h]
        rfl
      · have hfr : List.find? (fun x => x.id == pid) (r :: rest) =
            List.find? (fun x => x.id == pid) rest := by
          simp [List.find?, eq_false_of_ne_true h]
        rw [hfr] at hf
        obtain ⟨pre, post, h1, h2, h3⟩ := ih hf
        refine ⟨r :: pre, post, by rw [List.cons_append, h1], ?_, ?_⟩
        · unfold setPlayer
          rw [if_neg h, h2]
          rfl
        · intro x hx
          rcases List.mem_cons.mp hx with hx | hx
          · subst hx
            exact Bool.not_eq_true _ ▸ eq_false_of_ne_true h
          · exact h3 x hx

/-- Counting after a boolean filter partition of a mapped hand. -/
theorem count_map_filter_split (l : List Card) (p : Card → Bool)
    (a : String) :
    List.count a ((l.filter p).map Card.id) +
      List.count a ((l.filter (fun c => !(p c))).map Card.id) =
    List.count a (l.map Card.id) := by
  induction l with
  | nil => rfl
  | cons c rest ih =>
      cases hp : p c <;>
        simp [List.filter_cons, hp, List.count_cons] <;> omega

/-- `Hand.removeCards` is the negative filter of the id test. -/
theorem removeCardsByIds_eq_filter_not (hand : List Card)
    (ids : List String) :
    removeCardsByIds hand ids =
      hand.filter (fun c => !(ids.contains c.id)) := by
  unfold removeCardsByIds
  refine List.filter_congr ?_
  intro c _
  simp

/-- The length of a filter, split by a second boolean predicate. -/
theorem length_filter_split (l : List Card) (q p : Card → Bool) :
    (l.filter q).length =
      (l.filter (fun c => q c && p c)).length +
      (l.filter (fun c => q c && !(p c))).length := by
  induction l with
  | nil => rfl
  | cons c rest ih =>
      cases hq : q c <;> cases hp : p c <;>
        simp [List.filter_cons, hq, hp] <;> omega

/-- The first-occurrence rank list of a hand has no duplicates. -/
theorem uniqueRanks_nodup (hand : List Card) : (uniqueRanks hand).Nodup := by
  unfold uniqueRanks
  suffices h : ∀ acc : List String, acc.Nodup →
      (hand.foldl (fun acc c =>
        if acc.contains (rankOf c) then acc else acc ++ [rankOf c])
        acc).Nodup by
    exact h [] List.nodup_nil
  induction hand with
  | nil => intro acc hacc; exact hacc
  | cons c rest ih =>
      intro acc hacc
      dsimp only [List.foldl_cons]
      by_cases hc : acc.contains (rankOf c) = true
      · rw [if_pos hc]
        exact ih acc hacc
      · rw [if_neg hc]
        refine ih _ ?_
        rw [List.nodup_append]
        refine ⟨hacc, List.nodup_singleton _, ?_⟩
        intro x hx hmem
        rcases List.mem_singleton.mp hmem with rfl
        exact hc (List.elem_iff.mpr hx)

/-- Whether a hand member's id occurs among the ids of the hand's rank-`r`
group is decided by the member's own rank (ranks are read off ids). -/
theorem group_ids_contains (hand0 : List Card) (r : String) (c : Card)
    (hc : c ∈ hand0) :
    ((hand0.filter (fun d => rankOf d == r)).map Card.id).contains c.id =
      (rankOf c == r) := by
  cases hr : (rankOf c == r) with
  | false =>
      refine Bool.eq_false_iff.mpr ?_
      intro hct
      have hmem : c.id ∈ (hand0.filter (fun d => rankOf d == r)).map
          Card.id := by
        simpa using hct
      rcases List.mem_map.mp hmem with ⟨d, hdf, hdid⟩
      rcases List.mem_filter.mp hdf with ⟨_, hdr⟩
      have hcd : rankOf c = rankOf d := rankOf_eq_of_id_eq c d hdid.symm
      rw [hcd, hdr] at hr
      exact Bool.true_eq_false ▸ hr
  | true =>
      have hmem : c.id ∈ (hand0.filter (fun d => rankOf d == r)).map
          Card.id :=
        List.mem_map.mpr ⟨c, List.mem_filter.mpr ⟨hc, hr⟩, rfl⟩
      simpa using hmem

/-- Removing a rank group's ids from a rank-filtered hand filters out that
rank as well. -/
theorem removeGroup_filter (hand0 : List Card) (done : List String)
    (r : String) :
    removeCardsByIds (hand0.filter (fun c => !(done.contains (rankOf c))))
        ((hand0.filter (fun d => rankOf d == r)).map Card.id) =
      hand0.filter (fun c => !((done ++ [r]).contains (rankOf c))) := by
  rw [removeCardsByIds_eq_filter_not, List.filter_filter]
  refine List.filter_congr ?_
  intro c hc
  rw [group_ids_contains hand0 r c hc]
  by_cases h1 : rankOf c ∈ done <;> by_cases h2 : rankOf c = r <;>
    simp [h1, h2]

/-- The length drop when the rank-`r` group is filtered out of a hand in
which `r` had not been filtered yet. -/
theorem removeGroup_length (hand0 : List Card) (done : List String)
    (r : String) (hr : done.contains r = false) :
    (hand0.filter (fun c => !(done.contains (rankOf c)))).length =
      (hand0.filter
        (fun c => !((done ++ [r]).contains (rankOf c)))).length +
      (hand0.filter (fun d => rankOf d == r)).length := by
  rw [length_filter_split hand0 (fun c => !(done.contains (rankOf c)))
    (fun c => rankOf c == r)]
  have e1 : hand0.filter
      (fun c => !(done.contains (rankOf c)) && !(rankOf c == r)) =
      hand0.filter (fun c => !((done ++ [r]).contains (rankOf c))) := by
    refine List.filter_congr ?_
    intro c _
    by_cases h1 : rankOf c ∈ done <;> by_cases h2 : rankOf c = r <;>
      simp [h1, h2]
  have e2 : hand0.filter
      (fun c => !(done.contains (rankOf c)) && (rankOf c == r)) =
      hand0.filter (fun d => rankOf d == r) := by
    refine List.filter_congr ?_
    intro c _
    have hr' : r ∉ done := by simpa using hr
    by_cases h2 : rankOf c = r
    · rw [h2]
      simp [hr']
    · simp [h2]
  rw [e1, e2]
  omega

/-- Characterization of the `checkForBooks` fold: starting from the hand
filtered by an already-collected rank set `done`, folding over rank
groups (each the hand's filter at a distinct rank not in `done`) yields
the hand filtered by `done` plus the newly completed ranks `done2`, the
book list extended by exactly `done2`, and a hand shorter by 4 cards per
new book. -/
theorem bookStep_foldl_char (hand0 : List Card) :
    ∀ (gs : List (String × List Card)) (done bs : List String) (sc : Nat),
    (∀ g ∈ gs, g.2 = hand0.filter (fun c => rankOf c == g.1)) →
    (∀ g ∈ gs, done.contains g.1 = false) →
    gs.Pairwise (fun g h => g.1 ≠ h.1) →
    ∃ done2 : List String,
      (gs.foldl bookStep
          (hand0.filter (fun c => !(done.contains (rankOf c))), bs, sc)).1 =
        hand0.filter (fun c => !((done ++ done2).contains (rankOf c))) ∧
      (gs.foldl bookStep
          (hand0.filter (fun c => !(done.contains (rankOf c))), bs, sc)).2.1 =
        bs ++ done2 ∧
      (hand0.filter (fun c => !(done.contains (rankOf c)))).length =
        (hand0.filter
          (fun c => !((done ++ done2).contains (rankOf c)))).length +
        4 * done2.length := by
  intro gs
  induction gs with
  | nil =>
      intro done bs sc _ _ _
      exact ⟨[], by simp, by simp, by simp⟩
  | cons g rest ih =>
      intro done bs sc hchar hdone hpw
      have hgchar : g.2 = hand0.filter (fun c => rankOf c == g.1) :=
        hchar g (List.mem_cons_self g rest)
      have hgdone : done.contains g.1 = false :=
        hdone g (List.mem_cons_self g rest)
      obtain ⟨hhead, htail⟩ := List.pairwise_cons.mp hpw
      dsimp only [List.foldl_cons]
      by_cases h4 : g.2.length = 4
      · have hb : bookStep
            (hand0.filter (fun c => !(done.contains (rankOf c))), bs, sc) g =
            (hand0.filter
              (fun c => !((done ++ [g.1]).contains (rankOf c))),
             bs ++ [g.1], (bs ++ [g.1]).length) := by
          unfold bookStep
          rw [if_pos h4]
          dsimp only
          rw [hgchar, removeGroup_filter]
        rw [hb]
        obtain ⟨done2, hr1, hr2, hr3⟩ := ih (done ++ [g.1]) (bs ++ [g.1])
          (bs ++ [g.1]).length (fun g' hg' => hchar g' (List.mem_cons_of_mem _ hg'))
          (fun g' hg' => by
            have hne : g'.1 ≠ g.1 := fun h => (hhead g' hg') h.symm
            have h1 : (g'.1 ∈ done) = False :=
              eq_false (by simpa using hdone g' (List.mem_cons_of_mem _ hg'))
            simp [h1, hne])
          htail
        refine ⟨g.1 :: done2, ?_, ?_, ?_⟩
        · rw [hr1, List.append_assoc]
          rfl
        · rw [hr2, List.append_assoc]
          rfl
        · have hlen := removeGroup_length hand0 done g.1 hgdone
          rw [List.append_assoc] at hr3
          simp only [List.singleton_append, List.length_cons] at hr3 ⊢
          rw [hgchar] at h4
          omega
      · have hb : bookStep
            (hand0.filter (fun c => !(done.contains (rankOf c))), bs, sc) g =
            (hand0.filter (fun c => !(done.contains (rankOf c))), bs, sc) := by
          unfold bookStep
          rw [if_neg h4]
        rw [hb]
        exact ih done bs sc
          (fun g' hg' => hchar g' (List.mem_cons_of_mem _ hg'))
          (fun g' hg' => hdone g' (List.mem_cons_of_mem _ hg')) htail

/-- Total ranks recorded in a books map. -/
def booksSum (m : List (String × List String)) : Nat :=
  (m.map (fun kv => kv.2.length)).sum

/-- The `totalBooks` fold is the books map's rank total. -/
theorem totalBooks_eq_booksSum (s : GameState) :
    totalBooks s = booksSum (csGetBooks s.customState) := by
  unfold totalBooks booksSum
  generalize csGetBooks s.customState = m
  suffices h : ∀ (m : List (String × List String)) (acc : Nat),
      m.foldl (fun acc kv => acc + kv.2.length) acc =
        acc + (m.map (fun kv => kv.2.length)).sum by
    simpa using h m 0
  intro m
  induction m with
  | nil => intro acc; simp
  | cons kv rest ih =>
      intro acc
      simp only [List.foldl_cons, List.map_cons, List.sum_cons, ih]
      omega

/-- Writing one player's book list changes the total by the difference
with that player's previous list (books maps keep one entry per key). -/
theorem booksSum_set (m : List (String × List String)) (pid : String)
    (v : List String) (hk : (m.map Prod.fst).Nodup) :
    booksSum (booksSet m pid v) + ((booksGet m pid).getD []).length =
      booksSum m + v.length := by
  induction m with
  | nil =>
      simp [booksSet, booksGet, booksSum]
  | cons kv rest ih =>
      simp only [List.map_cons, List.nodup_cons] at hk
      obtain ⟨hknot, hkrest⟩ := hk
      by_cases h1 : kv.1 = pid
      · have hany : (kv :: rest).any (fun e => e.1 == pid) = true := by
          simp [List.any_cons, h1]
        have hrest_id : rest.map
            (fun e => if e.1 == pid then (pid, v) else e) = rest := by
          conv_rhs => rw [← List.map_id rest]
          refine List.map_congr_left ?_
          intro e he
          have hep : e.1 ≠ pid := by
            intro hep
            refine hknot ?_
            rw [h1, ← hep]
            exact List.mem_map_of_mem Prod.fst he
          simp [hep]
        unfold booksSet booksGet booksSum
        rw [if_pos hany, List.find?_cons_of_pos _ (by simpa using h1),
          List.map_cons, hrest_id,
          if_pos (show (kv.1 == pid) = true by simpa using h1)]
        simp
        omega
      · have hset : booksSet (kv :: rest) pid v =
            kv :: booksSet rest pid v := by
          unfold booksSet
          by_cases h2 : rest.any (fun e => e.1 == pid) = true
          · rw [if_pos (by simp [List.any_cons, h2]), if_pos h2]
            simp [h1]
          · rw [if_neg (by simp [List.any_cons, h1,
              h2]), if_neg h2]
            rfl
        have hget : booksGet (kv :: rest) pid = booksGet rest pid := by
          unfold booksGet
          rw [List.find?_cons_of_neg _ (by simpa using h1)]
        rw [hset, hget]
        unfold booksSum
        simp only [List.map_cons, List.sum_cons]
        have := ih hkrest
        unfold booksSum at this
        omega

/-- Writing one player's book list keeps the key set duplicate-free. -/
theorem booksSet_keys_nodup (m : List (String × List String))
    (pid : String) (v : List String) (hk : (m.map Prod.fst).Nodup) :
    ((booksSet m pid v).map Prod.fst).Nodup := by
  unfold booksSet
  by_cases hany : m.any (fun e => e.1 == pid) = true
  · rw [if_pos hany]
    have : (m.map (fun e => if e.1 == pid then (pid, v) else e)).map
        Prod.fst = m.map Prod.fst := by
      rw [List.map_map]
      refine List.map_congr_left ?_
      intro e _
      by_cases h : e.1 = pid
      · simp [h]
      · simp [h]
    rw [this]
    exact hk
  · rw [if_neg hany]
    rw [List.map_append, List.nodup_append]
    refine ⟨hk, by simp, ?_⟩
    intro x hx hmem
    simp only [List.map_cons, List.map_nil, List.mem_singleton] at hmem
    subst hmem
    rcases List.mem_map.mp hx with ⟨e, he, hex⟩
    rw [List.any_eq_true] at hany
    exact hany ⟨e, he, by simp [hex]⟩

/-- `csGetBooks` ignores writes to other keys. -/
theorem csGetBooks_csSet_ne (cs : List (String × CVal)) (k : String)
    (v : CVal) (h : k ≠ "books") :
    csGetBooks (csSet cs k v) = csGetBooks cs := by
  unfold csGetBooks
  rw [csGet_csSet_ne _ _ _ _ h]

/-- `csGetBooks` of a fresh books write. -/
theorem csGetBooks_csSet_books (cs : List (String × CVal))
    (m : List (String × List String)) :
    csGetBooks (csSet cs "books" (.books m)) = m := by
  unfold csGetBooks
  rw [csGet_csSet_same]

/-- `handsIds` distributes over append. -/
theorem handsIds_append (l1 l2 : List Player) :
    handsIds (l1 ++ l2) = handsIds l1 ++ handsIds l2 := by
  simp [handsIds]

/-- `handsIds` of a cons. -/
theorem handsIds_cons (p : Player) (l : List Player) :
    handsIds (p :: l) = p.hand.map Card.id ++ handsIds l := by
  simp [handsIds]

/-- `trackedGFL` through `handsIds`. -/
theorem trackedGFL_eq (s : GameState) :
    trackedGFL s = s.deck.map Card.id ++
      (s.discardPile.map Card.id ++ handsIds s.players) := rfl

/-- The rank groups of a hand carry pairwise-distinct ranks. -/
theorem groupByRank_pairwise (hand : List Card) :
    (groupByRank hand).Pairwise (fun g h => g.1 ≠ h.1) := by
  unfold groupByRank
  rw [List.pairwise_map]
  exact uniqueRanks_nodup hand

/-- `checkForBooks` net effect on the conservation bookkeeping: the
tracked ids only shrink, each newly completed book removes exactly four
cards, and the books map keeps one entry per player. -/
theorem checkForBooks_conserve (s : GameState) (pid : String)
    (hk : ((csGetBooks s.customState).map Prod.fst).Nodup) :
    ((trackedGFL (checkForBooks s pid) : List String) : Multiset String) ≤
        (trackedGFL s : List String) ∧
    (trackedGFL (checkForBooks s pid)).length +
        4 * totalBooks (checkForBooks s pid) =
      (trackedGFL s).length + 4 * totalBooks s ∧
    ((csGetBooks (checkForBooks s pid).customState).map Prod.fst).Nodup := by
  unfold checkForBooks
  cases hp : s.getPlayerById pid with
  | none => exact ⟨le_refl _, rfl, hk⟩
  | some p =>
      dsimp only
      set B1 := (if (booksGet (csGetBooks s.customState) pid).isNone then
          booksSet (csGetBooks s.customState) pid []
        else csGetBooks s.customState) with hB1
      set R := (groupByRank p.hand).foldl bookStep
        (p.hand, (booksGet B1 pid).getD [], p.score) with hR
      have hstart : p.hand.filter
          (fun c => !(([] : List String).contains (rankOf c))) = p.hand := by
        simp
      obtain ⟨done2, hr1, hr2, hr3⟩ := bookStep_foldl_char p.hand
        (groupByRank p.hand) [] ((booksGet B1 pid).getD []) p.score
        (fun g hg => groupByRank_mem p.hand g hg)
        (fun g _ => rfl)
        (groupByRank_pairwise p.hand)
      rw [hstart] at hr1 hr2 hr3
      rw [List.nil_append] at hr1 hr3
      have hks1 : (B1.map Prod.fst).Nodup := by
        rw [hB1]
        split
        · exact booksSet_keys_nodup _ _ _ hk
        · exact hk
      have hsum1 : booksSum B1 = booksSum (csGetBooks s.customState) := by
        rw [hB1]
        split
        · next hno =>
            have := booksSum_set (csGetBooks s.customState) pid [] hk
            rw [Option.isNone_iff_eq_none.mp hno] at this
            simpa using this
        · rfl
      have hsum2 := booksSum_set B1 pid R.2.1 hks1
      unfold GameState.getPlayerById at hp
      obtain ⟨pre, post, hsp1, hsp2, _⟩ := setPlayer_split s.players pid p
        (fun q => { q with hand := R.1, score := R.2.2 }) hp
      refine ⟨?_, ?_, ?_⟩
      · rw [Multiset.le_iff_count]
        intro a
        rw [Multiset.coe_count, Multiset.coe_count]
        rw [trackedGFL_eq, trackedGFL_eq]
        dsimp only
        rw [hsp2, hsp1, handsIds_append, handsIds_append, handsIds_cons,
          handsIds_cons]
        have hcnt := count_map_filter_split p.hand
          (fun c => done2.contains (rankOf c)) a
        rw [hr1]
        simp only [List.count_append]
        omega
      · rw [trackedGFL_eq, trackedGFL_eq]
        dsimp only
        rw [hsp2, hsp1, handsIds_append, handsIds_append, handsIds_cons,
          handsIds_cons]
        rw [totalBooks_eq_booksSum, totalBooks_eq_booksSum]
        dsimp only
        rw [csGetBooks_csSet_books]
        have hr3' : p.hand.length = R.1.length + 4 * done2.length := by
          rw [hr1]
          exact hr3
        have hlen2 : R.2.1.length =
            ((booksGet B1 pid).getD []).length + done2.length := by
          rw [hr2, List.length_append]
        simp only [List.length_append, List.length_map]
        omega
      · dsimp only
        rw [csGetBooks_csSet_books]
        exact booksSet_keys_nodup _ _ _ hks1

/-- The `lastAction`/`gameOver` epilogue moves no cards. -/
theorem trackedGFL_epilogue (x : GameState) (act : String) :
    trackedGFL (goFishEpilogue x act) = trackedGFL x := by
  unfold goFishEpilogue
  dsimp only
  split <;> rfl

/-- The epilogue leaves the books map untouched. -/
theorem csGetBooks_epilogue (x : GameState) (act : String) :
    csGetBooks (goFishEpilogue x act).customState =
      csGetBooks x.customState := by
  unfold goFishEpilogue
  dsimp only
  split
  · rw [csGetBooks_csSet_ne _ _ _ (by decide),
      csGetBooks_csSet_ne _ _ _ (by decide)]
  · rw [csGetBooks_csSet_ne _ _ _ (by decide)]

/-- The epilogue keeps the book count. -/
theorem totalBooks_epilogue (x : GameState) (act : String) :
    totalBooks (goFishEpilogue x act) = totalBooks x := by
  rw [totalBooks_eq_booksSum, totalBooks_eq_booksSum, csGetBooks_epilogue]

/-- `GoFishRules.nextTurn` moves no cards. -/
theorem trackedGFL_goFishNextTurn (s : GameState) :
    trackedGFL (goFishNextTurn s) = trackedGFL s := rfl

/-- `GoFishRules.nextTurn` leaves the books map untouched. -/
theorem csGetBooks_goFishNextTurn (s : GameState) :
    csGetBooks (goFishNextTurn s).customState =
      csGetBooks s.customState := by
  unfold goFishNextTurn
  dsimp only
  rw [csGetBooks_csSet_ne _ _ _ (by decide)]

/-- Conservation bookkeeping through a card-permuting update followed by
`checkForBooks` and the epilogue. -/
theorem conserve_compose (s s' : GameState) (pid : String) (act : String)
    (hk : ((csGetBooks s.customState).map Prod.fst).Nodup)
    (hbooks : csGetBooks s'.customState = csGetBooks s.customState)
    (hperm : (trackedGFL s').Perm (trackedGFL s)) :
    (↑(trackedGFL (goFishEpilogue (checkForBooks s' pid) act)) :
        Multiset String) ≤ ↑(trackedGFL s) ∧
    (trackedGFL (goFishEpilogue (checkForBooks s' pid) act)).length +
        4 * totalBooks (goFishEpilogue (checkForBooks s' pid) act) =
      (trackedGFL s).length + 4 * totalBooks s ∧
    ((csGetBooks (goFishEpilogue (checkForBooks s' pid)
        act).customState).map Prod.fst).Nodup := by
  have hk' : ((csGetBooks s'.customState).map Prod.fst).Nodup := by
    rw [hbooks]
    exact hk
  obtain ⟨h1, h2, h3⟩ := checkForBooks_conserve s' pid hk'
  have ht : totalBooks s' = totalBooks s := by
    rw [totalBooks_eq_booksSum, totalBooks_eq_booksSum, hbooks]
  refine ⟨?_, ?_, ?_⟩
  · rw [trackedGFL_epilogue]
    exact le_of_le_of_eq h1 (Multiset.coe_eq_coe.mpr hperm)
  · rw [trackedGFL_epilogue, totalBooks_epilogue]
    have hl := hperm.length_eq
    omega
  · rw [csGetBooks_epilogue]
    exact h3

/-- `GoFishRules.applyMove` conservation bookkeeping: tracked ids only
shrink, each new book removes exactly four cards, and the books map keeps
one entry per player. -/
theorem goFishApplyMove_conserve (s : GameState) (pid : String)
    (mv : GFMove) (player target : Player)
    (hp : s.getPlayerById pid = some player)
    (htg : s.getPlayerById mv.targetPlayerId = some target)
    (hnt : mv.targetPlayerId ≠ pid)
    (hk : ((csGetBooks s.customState).map Prod.fst).Nodup) :
    (↑(trackedGFL (goFishApplyMove s pid mv)) : Multiset String) ≤
        ↑(trackedGFL s) ∧
    (trackedGFL (goFishApplyMove s pid mv)).length +
        4 * totalBooks (goFishApplyMove s pid mv) =
      (trackedGFL s).length + 4 * totalBooks s ∧
    ((csGetBooks (goFishApplyMove s pid mv).customState).map
      Prod.fst).Nodup := by
  unfold goFishApplyMove
  rw [hp, htg]
  dsimp only
  split
  · -- transfer branch
    set tCards := target.hand.filter (fun c => rankOf c == mv.rank) with htC
    set rem := removeCardsByIds target.hand (tCards.map Card.id) with hrem
    set rmv := target.hand.filter
      (fun c => (tCards.map Card.id).contains c.id) with hrmv
    refine conserve_compose s _ pid _ hk rfl ?_
    unfold GameState.getPlayerById at htg
    obtain ⟨preT, postT, hT1, hT2, _⟩ := setPlayer_split s.players
      mv.targetPlayerId target (fun q => { q with hand := rem }) htg
    have hf2 : (setPlayer s.players mv.targetPlayerId
        (fun q => { q with hand := rem })).find?
        (fun r => r.id == pid) = some player := by
      rw [find_setPlayer_ne]
      · exact hp
      · intro r
        rfl
      · exact hnt
    obtain ⟨preP, postP, hP1, hP2, _⟩ := setPlayer_split _ pid player
      (fun q => { q with hand := q.hand ++ rmv }) hf2
    refine List.perm_iff_count.mpr ?_
    intro a
    rw [trackedGFL_eq, trackedGFL_eq]
    dsimp only
    rw [hP2, hT1]
    have hmid := congrArg (fun l => List.count a (handsIds l))
      (hT2.symm.trans hP1)
    have hpart := count_map_filter_split target.hand
      (fun c => (tCards.map Card.id).contains c.id) a
    have hrem2 : rem = target.hand.filter
        (fun c => !((tCards.map Card.id).contains c.id)) :=
      hrem.trans (removeCardsByIds_eq_filter_not _ _)
    rw [← hrmv, ← hrem2] at hpart
    simp only [handsIds_append, handsIds_cons, List.count_append,
      List.map_append, List.length_append] at hmid ⊢
    omega
  · -- go-fish branch
    split
    · -- deck non-empty: draw
      next drawn rest heq =>
        refine conserve_compose s _ pid _ hk ?_ ?_
        · exact csGetBooks_csSet_ne _ _ _ (by decide)
        · unfold GameState.getPlayerById at hp
          obtain ⟨preP, postP, hP1, hP2, _⟩ := setPlayer_split s.players
            pid player (fun q => { q with hand := q.hand ++ [drawn] }) hp
          refine List.perm_iff_count.mpr ?_
          intro a
          rw [trackedGFL_eq, trackedGFL_eq]
          dsimp only
          rw [hP2, hP1, heq]
          simp only [handsIds_append, handsIds_cons, List.count_append,
            List.map_append, List.map_cons, List.count_cons, List.map_nil,
            List.count_nil, List.append_nil]
          omega
    · -- deck empty
      dsimp only
      refine ⟨?_, ?_, ?_⟩
      · rw [trackedGFL_epilogue]
        exact le_refl _
      · rw [trackedGFL_epilogue, totalBooks_epilogue]
        rw [totalBooks_eq_booksSum, totalBooks_eq_booksSum]
        dsimp only
        rw [csGetBooks_csSet_ne _ _ _ (by decide)]
        rfl
      · rw [csGetBooks_epilogue]
        dsimp only
        rw [csGetBooks_csSet_ne _ _ _ (by decide)]
        exact hk

/-- One dealing pass conserves deck-plus-hands card ids. -/
theorem dealPass_count (a : String) : ∀ (ps : List Player)
    (deck : List Card),
    List.count a ((dealPass deck ps).1.map Card.id) +
      List.count a (handsIds (dealPass deck ps).2) =
    List.count a (deck.map Card.id) + List.count a (handsIds ps) := by
  intro ps
  induction ps with
  | nil =>
      intro deck
      cases deck <;> rfl
  | cons p rest ih =>
      intro deck
      cases deck with
      | nil =>
          have hr := ih []
          unfold dealPass
          dsimp only
          simp only [handsIds_cons, List.count_append] at hr ⊢
          omega
      | cons c dk =>
          have hr := ih dk
          unfold dealPass
          dsimp only
          simp only [handsIds_cons, List.count_append, List.map_append,
            List.map_cons, List.map_nil, List.count_cons, List.count_nil,
            List.append_nil] at hr ⊢
          omega

/-- `CardUtils.dealCards` conserves deck-plus-hands card ids. -/
theorem dealRounds_count (a : String) : ∀ (n : Nat) (deck : List Card)
    (ps : List Player),
    List.count a ((dealRounds n deck ps).1.map Card.id) +
      List.count a (handsIds (dealRounds n deck ps).2) =
    List.count a (deck.map Card.id) + List.count a (handsIds ps) := by
  intro n
  induction n with
  | zero => intro deck ps; rfl
  | succ m ih =>
      intro deck ps
      unfold dealRounds
      dsimp only
      have h1 := ih (dealPass deck ps).1 (dealPass deck ps).2
      have h2 := dealPass_count a ps deck
      omega

/-- `GoFishRules.initializeGame` from a fresh state: tracked ids are the
shuffled deck's, no books yet, books map well-formed. -/
theorem goFishInitGame_conserve (sh : List Card → List Card)
    (s0 s1 : GameState) (hdp : s0.discardPile = [])
    (hh : handsIds s0.players = [])
    (h1 : goFishInitGame sh s0 = some s1) :
    (trackedGFL s1).Perm ((sh s0.deck).map Card.id) ∧
    totalBooks s1 = 0 ∧
    ((csGetBooks s1.customState).map Prod.fst).Nodup := by
  unfold goFishInitGame at h1
  rcases hps : s0.players with _ | ⟨p0, _ | ⟨p1, rest⟩⟩ <;> rw [hps] at h1
  · exact absurd h1 (by simp)
  · exact absurd h1 (by simp)
  · dsimp only at h1
    injection h1 with h1
    subst h1
    rw [hps] at hh
    have hbooks : csGetBooks (csSet (csSet (csSet s0.customState "books"
        (.books [])) "lastAction" .null) "gameOver" (.bool false)) = [] := by
      rw [csGetBooks_csSet_ne _ _ _ (by decide),
        csGetBooks_csSet_ne _ _ _ (by decide), csGetBooks_csSet_books]
    refine ⟨?_, ?_, ?_⟩
    · refine List.perm_iff_count.mpr ?_
      intro a
      rw [trackedGFL_eq]
      dsimp only
      rw [hdp]
      have hd := dealRounds_count a
        (if (p0 :: p1 :: rest).length > 3 then 5 else 7)
        (sh s0.deck) (p0 :: p1 :: rest)
      rw [hh] at hd
      simp only [List.count_append, List.map_nil, List.count_nil] at hd ⊢
      omega
    · rw [totalBooks_eq_booksSum]
      dsimp only
      rw [hbooks]
      rfl
    · dsimp only
      rw [hbooks]
      exact List.nodup_nil

/-- One engine step of a Go Fish game: apply the move, then hand the turn
on unless the game has ended. -/
def gfStep (s : GameState) (pid : String) (mv : GFMove) : GameState :=
  let s2 := goFishApplyMove s pid mv
  if goFishIsGameOver s2 then s2 else goFishNextTurn s2

/-- The states a Go Fish game can reach: the dealt state right after
`initializeGame` on a freshly created game (under any shuffle permutation
of the original deck `D0`), and every state obtained from a reachable one
by an accepted `applyMove` (mover exists, it is their turn, `validateMove`
passes) followed by the engine's `nextTurn` unless the game has ended. -/
inductive GFReach (D0 : List Card) : GameState → Prop where
  | init (sh : List Card → List Card) (s0 s1 : GameState)
      (hsh : (sh D0).Perm D0) (hd : s0.deck = D0)
      (hdp : s0.discardPile = []) (hh : handsIds s0.players = [])
      (h1 : goFishInitGame sh s0 = some s1) : GFReach D0 s1
  | step (s : GameState) (pid : String) (mv : GFMove) (hr : GFReach D0 s)
      (hv : (pid == s.currentPlayerId &&
        ((s.getPlayerById pid).map
          (fun pl => goFishValidateMove s pl mv)).getD false) = true) :
      GFReach D0 (gfStep s pid mv)

/-- Conservation along Go Fish reachability: the tracked card ids of a
reachable state form a sub-multiset of the original deck's ids, shorter
than it by exactly four cards per collected book. -/
theorem gfReach_conserved (D0 : List Card) (s : GameState)
    (hr : GFReach D0 s) :
    (↑(trackedGFL s) : Multiset String) ≤ ↑(D0.map Card.id) ∧
    (trackedGFL s).length + 4 * totalBooks s = D0.length ∧
    ((csGetBooks s.customState).map Prod.fst).Nodup := by
  induction hr with
  | init sh s0 s1 hsh hd hdp hh h1 =>
      obtain ⟨hperm, hb0, hkn⟩ := goFishInitGame_conserve sh s0 s1 hdp hh h1
      have hperm2 : (trackedGFL s1).Perm (D0.map Card.id) := by
        refine hperm.trans ?_
        rw [hd]
        exact hsh.map Card.id
      refine ⟨le_of_eq (Multiset.coe_eq_coe.mpr hperm2), ?_, hkn⟩
      have hl := hperm2.length_eq
      rw [List.length_map] at hl
      omega
  | step s pid mv hr hv ih =>
      obtain ⟨hle, hlen, hkn⟩ := ih
      cases hfind : s.getPlayerById pid with
      | none => simp [hfind] at hv
      | some pl =>
          rw [hfind] at hv
          rw [Bool.and_eq_true] at hv
          have hval : goFishValidateMove s pl mv = true := by
            simpa using hv.2
          unfold goFishValidateMove at hval
          by_cases htid : (mv.targetPlayerId == pl.id) = true
          · rw [if_pos htid] at hval
            exact absurd hval (by simp)
          · rw [if_neg htid] at hval
            cases htg : s.getPlayerById mv.targetPlayerId with
            | none =>
                rw [htg] at hval
                exact absurd hval (by simp)
            | some tg =>
                have hplid : pl.id = pid := by
                  unfold GameState.getPlayerById at hfind
                  exact find_id_eq _ _ _ hfind
                have hnt : mv.targetPlayerId ≠ pid := by
                  intro h
                  exact htid (by simp [h, hplid])
                obtain ⟨h1, h2, h3⟩ := goFishApplyMove_conserve s pid mv
                  pl tg hfind htg hnt hkn
                unfold gfStep
                dsimp only
                split
                · exact ⟨le_trans h1 hle, by omega, h3⟩
                · have htb : totalBooks (goFishNextTurn
                      (goFishApplyMove s pid mv)) =
                      totalBooks (goFishApplyMove s pid mv) := by
                    rw [totalBooks_eq_booksSum, totalBooks_eq_booksSum,
                      csGetBooks_goFishNextTurn]
                  refine ⟨?_, ?_, ?_⟩
                  · rw [trackedGFL_goFishNextTurn]
                    exact le_trans h1 hle
                  · rw [trackedGFL_goFishNextTurn, htb]
                    omega
                  · rw [csGetBooks_goFishNextTurn]
                    exact h3

/-- A 16-card deck whose identity-shuffle deal gives the first player
seven cards with three sevens, and the second player the fourth seven. -/
def gfC3deck : List Card :=
  [cardC "7" "Hearts", cardC "7" "Spades", cardC "7" "Diamonds",
   cardC "2" "Diamonds", cardC "7" "Clubs", cardC "2" "Clubs",
   cardC "3" "Hearts", cardC "2" "Spades", cardC "3" "Diamonds",
   cardC "4" "Hearts", cardC "3" "Clubs", cardC "4" "Diamonds",
   cardC "2" "Hearts", cardC "4" "Clubs", cardC "3" "Spades",
   cardC "4" "Spades"]

/-- A fresh two-player Go Fish state over `gfC3deck`. -/
def gfC3s0 : GameState :=
  { deck := gfC3deck
    discardPile := []
    players := [mkPlayer "p1" "Alice", mkPlayer "p2" "Bob"]
    currentPlayerId := "p1"
    round := 1
    customState := [] }

/-- The dealt Go Fish state (identity shuffle). -/
def gfC3init : GameState := (goFishInitGame id gfC3s0).getD gfC3s0

/-- The state after the accepted ask `p1 → p2 : "7"`, which completes a
book of sevens. -/
def gfC3bad : GameState := gfStep gfC3init "p1" ⟨"p2", "7"⟩

/-- A fresh two-player War state over the four-card deck. -/
def warC3s0 : GameState :=
  { deck := deckWar4
    discardPile := []
    players := [mkPlayer "p1" "Alice", mkPlayer "p2" "Bob"]
    currentPlayerId := "p1"
    round := 1
    customState := [] }

/-- The dealt War state (identity shuffle). -/
def warC3s1 : GameState := (warInitGame id warC3s0).getD warC3s0

/-- **C3, counterexample.** A reachable Go Fish state (dealt game, then
one accepted ask that completes a book of sevens) whose tracked card ids
— deck, discard pile and all hands — are not a permutation of the
original deck's ids: the four carded sevens are gone from every card
container, the books map holding only the rank. -/
theorem goFish_book_destroys_cards_counterexample :
    GFReach gfC3deck gfC3bad ∧
    ¬ (trackedGFL gfC3bad).Perm (gfC3deck.map Card.id) := by
  constructor
  · refine GFReach.step gfC3init "p1" ⟨"p2", "7"⟩ ?_ (by decide)
    exact GFReach.init id gfC3s0 gfC3init (List.Perm.refl _) rfl rfl rfl
      (by decide)
  · decide

/-- **C3 (amended).** Card conservation over reachable states.  War: in
every state reachable after `initializeGame` and any sequence of accepted
`applyMove`s, the multiset of card ids across deck, discard pile, both
hands and the `cardsInPlay` pile equals exactly the original deck's ids
(so with a duplicate-free deck there are no duplicates and no omissions).
Go Fish: the tracked ids across deck, discard pile and all hands form a
sub-multiset of the original deck's ids, smaller by exactly four cards
per collected book — completed books remove their four cards from every
card container (only the rank is kept in `customState.books`), so the
claimed unconditional equality fails for Go Fish. -/
theorem card_conservation_reachable :
    (∀ (D0 : List Card) (p q : Player) (s : GameState), p.id ≠ q.id →
      WarReach D0 p q s →
      (trackedWarL s).Perm (D0.map Card.id) ∧
      ((D0.map Card.id).Nodup → (trackedWarL s).Nodup)) ∧
    (∀ (D0 : List Card) (s : GameState), GFReach D0 s →
      (↑(trackedGFL s) : Multiset String) ≤ ↑(D0.map Card.id) ∧
      (trackedGFL s).length + 4 * totalBooks s = D0.length ∧
      ((D0.map Card.id).Nodup → (trackedGFL s).Nodup)) := by
  constructor
  · intro D0 p q s hpq hr
    have h := warReach_conserved D0 p q s hpq hr
    exact ⟨h.2, fun hnd => (h.2.nodup_iff).mpr hnd⟩
  · intro D0 s hr
    obtain ⟨hle, hlen, _⟩ := gfReach_conserved D0 s hr
    refine ⟨hle, hlen, fun hnd => ?_⟩
    have hm : (↑(trackedGFL s) : Multiset String).Nodup :=
      Multiset.nodup_of_le hle (by
        rw [Multiset.coe_nodup]
        exact hnd)
    rw [Multiset.coe_nodup] at hm
    exact hm

/-- Witness: conservation evaluated on a dealt four-card War game and on
the dealt 16-card Go Fish game. -/
theorem card_conservation_reachable_witness :
    ((trackedWarL warC3s1).Perm (deckWar4.map Card.id) ∧
      (trackedWarL warC3s1).Nodup) ∧
    ((↑(trackedGFL gfC3init) : Multiset String) ≤
        ↑(gfC3deck.map Card.id) ∧
      (trackedGFL gfC3init).length + 4 * totalBooks gfC3init =
        gfC3deck.length) := by
  constructor
  · have h := card_conservation_reachable.1 deckWar4
      (mkPlayer "p1" "Alice") (mkPlayer "p2" "Bob") warC3s1 (by decide)
      (WarReach.init id warC3s0 warC3s1 (List.Perm.refl _) rfl rfl rfl rfl
        rfl (by decide))
    exact ⟨h.1, h.2 (by decide)⟩
  · have h := card_conservation_reachable.2 gfC3deck gfC3init
      (GFReach.init id gfC3s0 gfC3init (List.Perm.refl _) rfl rfl rfl
        (by decide))
    exact ⟨h.1, h.2.1⟩
